import Mathlib

/-!
Verification of the EVM bytecode analysis core (`src/analysis.rs` of
evm2cpp): the code-metadata scanner (`CodeMeta::new`), the basic-block
partitioner (`BasicBlock::parse`), the abstract-stack emulator
(`BasicBlock::emulate_bb` / `optimize`) with its constant-folding oracle
(`evaluate_opcode`), and the program builder (`Program::new`).

Machine integers: EVM words are 256-bit unsigned; we embed them as `Nat`
with explicit reduction modulo `2 ^ 256` exactly where the Rust `U256`
operations wrap.  `usize` quantities (addresses, indices, stack offsets)
are embedded as `Nat`; the handful of `usize` subtractions in the source
are guarded by the surrounding branch conditions so that they never
underflow, and Lean's truncated `Nat` subtraction coincides with them.
-/

/-- The wrap-around modulus of the 256-bit `U256` type. -/
def U256LIMIT : Nat := 2 ^ 256

/-- Largest value of the target's `usize` (the build targets 64-bit). -/
def USIZE_MAX : Nat := 2 ^ 64 - 1

/-- Modelled from the spec: the instruction table of §4.1 (the file
`instructions.rs` is not part of the sources at hand; only its interface
is described).  One named variant per recognized EVM opcode; the
`PUSH`/`DUP`/`SWAP`/`LOG` families carry their index. -/
inductive Instruction : Type where
  | STOP | ADD | MUL | SUB | DIV | SDIV | MOD | SMOD | ADDMOD | MULMOD
  | EXP | SIGNEXTEND
  | LT | GT | SLT | SGT | EQ | ISZERO | AND | OR | XOR | NOT | BYTE
  | SHL | SHR | SAR
  | SHA3
  | ADDRESS | BALANCE | ORIGIN | CALLER | CALLVALUE | CALLDATALOAD
  | CALLDATASIZE | CALLDATACOPY | CODESIZE | CODECOPY | GASPRICE
  | EXTCODESIZE | EXTCODECOPY | RETURNDATASIZE | RETURNDATACOPY
  | EXTCODEHASH
  | BLOCKHASH | COINBASE | TIMESTAMP | NUMBER | DIFFICULTY | GASLIMIT
  | CHAINID | SELFBALANCE
  | POP | MLOAD | MSTORE | MSTORE8 | SLOAD | SSTORE | JUMP | JUMPI
  | PC | MSIZE | GAS | JUMPDEST
  | PUSH (n : Nat)
  | DUP (n : Nat)
  | SWAP (n : Nat)
  | LOG (n : Nat)
  | CREATE | CALL | CALLCODE | RETURN | DELEGATECALL | CREATE2
  | STATICCALL | REVERT | INVALID | SELFDESTRUCT

/-- Injective numbering of the opcode variants, used to decide equality
(the automatically derived decision procedure is too large for this
inductive).  The simple variants get tags below 80; the indexed families
get tags `100 + 4 * n + family`, which never collide across families. -/
def Instruction.tag : Instruction → Nat
  | .STOP => 0 | .ADD => 1 | .MUL => 2 | .SUB => 3 | .DIV => 4
  | .SDIV => 5 | .MOD => 6 | .SMOD => 7 | .ADDMOD => 8 | .MULMOD => 9
  | .EXP => 10 | .SIGNEXTEND => 11
  | .LT => 12 | .GT => 13 | .SLT => 14 | .SGT => 15 | .EQ => 16
  | .ISZERO => 17 | .AND => 18 | .OR => 19 | .XOR => 20 | .NOT => 21
  | .BYTE => 22 | .SHL => 23 | .SHR => 24 | .SAR => 25
  | .SHA3 => 26
  | .ADDRESS => 27 | .BALANCE => 28 | .ORIGIN => 29
  | .CALLER => 30 | .CALLVALUE => 31 | .CALLDATALOAD => 32
  | .CALLDATASIZE => 33 | .CALLDATACOPY => 34 | .CODESIZE => 35
  | .CODECOPY => 36 | .GASPRICE => 37 | .EXTCODESIZE => 38
  | .EXTCODECOPY => 39
  | .RETURNDATASIZE => 40 | .RETURNDATACOPY => 41 | .EXTCODEHASH => 42
  | .BLOCKHASH => 43 | .COINBASE => 44 | .TIMESTAMP => 45 | .NUMBER => 46
  | .DIFFICULTY => 47 | .GASLIMIT => 48 | .CHAINID => 49
  | .SELFBALANCE => 50
  | .POP => 51 | .MLOAD => 52 | .MSTORE => 53 | .MSTORE8 => 54
  | .SLOAD => 55 | .SSTORE => 56 | .JUMP => 57 | .JUMPI => 58
  | .PC => 59 | .MSIZE => 60 | .GAS => 61 | .JUMPDEST => 62
  | .CREATE => 63 | .CALL => 64 | .CALLCODE => 65 | .RETURN => 66
  | .DELEGATECALL => 67 | .CREATE2 => 68 | .STATICCALL => 69
  | .REVERT => 70 | .INVALID => 71 | .SELFDESTRUCT => 72
  | .PUSH n => 100 + 4 * n
  | .DUP n => 101 + 4 * n
  | .SWAP n => 102 + 4 * n
  | .LOG n => 103 + 4 * n

/-- Decoding of the tags 0..9. -/
def Instruction.untag0 (n : Nat) : Instruction :=
  if n = 0 then .STOP else if n = 1 then .ADD else if n = 2 then .MUL
  else if n = 3 then .SUB else if n = 4 then .DIV else if n = 5 then .SDIV
  else if n = 6 then .MOD else if n = 7 then .SMOD
  else if n = 8 then .ADDMOD else .MULMOD

/-- Decoding of the tags 10..19. -/
def Instruction.untag1 (n : Nat) : Instruction :=
  if n = 10 then .EXP else if n = 11 then .SIGNEXTEND
  else if n = 12 then .LT else if n = 13 then .GT else if n = 14 then .SLT
  else if n = 15 then .SGT else if n = 16 then .EQ
  else if n = 17 then .ISZERO else if n = 18 then .AND else .OR

/-- Decoding of the tags 20..29. -/
def Instruction.untag2 (n : Nat) : Instruction :=
  if n = 20 then .XOR else if n = 21 then .NOT else if n = 22 then .BYTE
  else if n = 23 then .SHL else if n = 24 then .SHR
  else if n = 25 then .SAR else if n = 26 then .SHA3
  else if n = 27 then .ADDRESS else if n = 28 then .BALANCE else .ORIGIN

/-- Decoding of the tags 30..39. -/
def Instruction.untag3 (n : Nat) : Instruction :=
  if n = 30 then .CALLER
  else if n = 31 then .CALLVALUE else if n = 32 then .CALLDATALOAD
  else if n = 33 then .CALLDATASIZE else if n = 34 then .CALLDATACOPY
  else if n = 35 then .CODESIZE else if n = 36 then .CODECOPY
  else if n = 37 then .GASPRICE else if n = 38 then .EXTCODESIZE
  else .EXTCODECOPY

/-- Decoding of the tags 40..49. -/
def Instruction.untag4 (n : Nat) : Instruction :=
  if n = 40 then .RETURNDATASIZE
  else if n = 41 then .RETURNDATACOPY else if n = 42 then .EXTCODEHASH
  else if n = 43 then .BLOCKHASH else if n = 44 then .COINBASE
  else if n = 45 then .TIMESTAMP else if n = 46 then .NUMBER
  else if n = 47 then .DIFFICULTY else if n = 48 then .GASLIMIT
  else .CHAINID

/-- Decoding of the tags 50..59. -/
def Instruction.untag5 (n : Nat) : Instruction :=
  if n = 50 then .SELFBALANCE
  else if n = 51 then .POP else if n = 52 then .MLOAD
  else if n = 53 then .MSTORE else if n = 54 then .MSTORE8
  else if n = 55 then .SLOAD else if n = 56 then .SSTORE
  else if n = 57 then .JUMP else if n = 58 then .JUMPI else .PC

/-- Decoding of the tags 60..69. -/
def Instruction.untag6 (n : Nat) : Instruction :=
  if n = 60 then .MSIZE
  else if n = 61 then .GAS else if n = 62 then .JUMPDEST
  else if n = 63 then .CREATE else if n = 64 then .CALL
  else if n = 65 then .CALLCODE else if n = 66 then .RETURN
  else if n = 67 then .DELEGATECALL else if n = 68 then .CREATE2
  else .STATICCALL

/-- Decoding of the tags 70..72. -/
def Instruction.untag7 (n : Nat) : Instruction :=
  if n = 70 then .REVERT else if n = 71 then .INVALID else .SELFDESTRUCT

/-- Left inverse of `Instruction.tag`. -/
def Instruction.untag (n : Nat) : Instruction :=
  if n < 10 then untag0 n
  else if n < 20 then untag1 n
  else if n < 30 then untag2 n
  else if n < 40 then untag3 n
  else if n < 50 then untag4 n
  else if n < 60 then untag5 n
  else if n < 70 then untag6 n
  else if n < 80 then untag7 n
  else if (n - 100) % 4 = 0 then .PUSH ((n - 100) / 4)
  else if (n - 100) % 4 = 1 then .DUP ((n - 100) / 4)
  else if (n - 100) % 4 = 2 then .SWAP ((n - 100) / 4)
  else .LOG ((n - 100) / 4)

theorem Instruction.untag_tag_push (n : Nat) :
    untag (tag (.PUSH n)) = .PUSH n := by
  show untag (100 + 4 * n) = .PUSH n
  unfold untag
  repeat rw [if_neg (by omega)]
  rw [if_pos (by omega)]
  congr 1
  omega

theorem Instruction.untag_tag_dup (n : Nat) :
    untag (tag (.DUP n)) = .DUP n := by
  show untag (101 + 4 * n) = .DUP n
  unfold untag
  repeat rw [if_neg (by omega)]
  rw [if_pos (by omega)]
  congr 1
  omega

theorem Instruction.untag_tag_swap (n : Nat) :
    untag (tag (.SWAP n)) = .SWAP n := by
  show untag (102 + 4 * n) = .SWAP n
  unfold untag
  repeat rw [if_neg (by omega)]
  rw [if_pos (by omega)]
  congr 1
  omega

theorem Instruction.untag_tag_log (n : Nat) :
    untag (tag (.LOG n)) = .LOG n := by
  show untag (103 + 4 * n) = .LOG n
  unfold untag
  repeat rw [if_neg (by omega)]
  congr 1
  omega

set_option maxHeartbeats 4000000 in
theorem Instruction.untag_tag : ∀ i : Instruction, untag (tag i) = i := by
  intro i
  cases i <;>
    first
      | exact untag_tag_push _
      | exact untag_tag_dup _
      | exact untag_tag_swap _
      | exact untag_tag_log _
      | rfl

instance : DecidableEq Instruction := fun a b =>
  decidable_of_iff (a.tag = b.tag)
    ⟨fun h => by
       have := congrArg Instruction.untag h
       rwa [Instruction.untag_tag, Instruction.untag_tag] at this,
     fun h => by rw [h]⟩

/-- Static stack arity of an instruction: `args` consumed, `ret` produced. -/
structure InstructionInfo : Type where
  args : Nat
  ret : Nat
deriving DecidableEq

/-- Modelled from the spec: `Instruction::info()` — the stack in/out arity
of every opcode (§4.1, canonical EVM arities). -/
def Instruction.info : Instruction → InstructionInfo
  | .STOP => ⟨0, 0⟩
  | .ADD => ⟨2, 1⟩ | .MUL => ⟨2, 1⟩ | .SUB => ⟨2, 1⟩ | .DIV => ⟨2, 1⟩
  | .SDIV => ⟨2, 1⟩ | .MOD => ⟨2, 1⟩ | .SMOD => ⟨2, 1⟩
  | .ADDMOD => ⟨3, 1⟩ | .MULMOD => ⟨3, 1⟩
  | .EXP => ⟨2, 1⟩ | .SIGNEXTEND => ⟨2, 1⟩
  | .LT => ⟨2, 1⟩ | .GT => ⟨2, 1⟩ | .SLT => ⟨2, 1⟩ | .SGT => ⟨2, 1⟩
  | .EQ => ⟨2, 1⟩ | .ISZERO => ⟨1, 1⟩
  | .AND => ⟨2, 1⟩ | .OR => ⟨2, 1⟩ | .XOR => ⟨2, 1⟩ | .NOT => ⟨1, 1⟩
  | .BYTE => ⟨2, 1⟩ | .SHL => ⟨2, 1⟩ | .SHR => ⟨2, 1⟩ | .SAR => ⟨2, 1⟩
  | .SHA3 => ⟨2, 1⟩
  | .ADDRESS => ⟨0, 1⟩ | .BALANCE => ⟨1, 1⟩ | .ORIGIN => ⟨0, 1⟩
  | .CALLER => ⟨0, 1⟩ | .CALLVALUE => ⟨0, 1⟩ | .CALLDATALOAD => ⟨1, 1⟩
  | .CALLDATASIZE => ⟨0, 1⟩ | .CALLDATACOPY => ⟨3, 0⟩
  | .CODESIZE => ⟨0, 1⟩ | .CODECOPY => ⟨3, 0⟩ | .GASPRICE => ⟨0, 1⟩
  | .EXTCODESIZE => ⟨1, 1⟩ | .EXTCODECOPY => ⟨4, 0⟩
  | .RETURNDATASIZE => ⟨0, 1⟩ | .RETURNDATACOPY => ⟨3, 0⟩
  | .EXTCODEHASH => ⟨1, 1⟩
  | .BLOCKHASH => ⟨1, 1⟩ | .COINBASE => ⟨0, 1⟩ | .TIMESTAMP => ⟨0, 1⟩
  | .NUMBER => ⟨0, 1⟩ | .DIFFICULTY => ⟨0, 1⟩ | .GASLIMIT => ⟨0, 1⟩
  | .CHAINID => ⟨0, 1⟩ | .SELFBALANCE => ⟨0, 1⟩
  | .POP => ⟨1, 0⟩ | .MLOAD => ⟨1, 1⟩ | .MSTORE => ⟨2, 0⟩
  | .MSTORE8 => ⟨2, 0⟩ | .SLOAD => ⟨1, 1⟩ | .SSTORE => ⟨2, 0⟩
  | .JUMP => ⟨1, 0⟩ | .JUMPI => ⟨2, 0⟩
  | .PC => ⟨0, 1⟩ | .MSIZE => ⟨0, 1⟩ | .GAS => ⟨0, 1⟩ | .JUMPDEST => ⟨0, 0⟩
  | .PUSH _ => ⟨0, 1⟩
  | .DUP n => ⟨n, n + 1⟩
  | .SWAP n => ⟨n + 1, n + 1⟩
  | .LOG n => ⟨n + 2, 0⟩
  | .CREATE => ⟨3, 1⟩ | .CALL => ⟨7, 1⟩ | .CALLCODE => ⟨7, 1⟩
  | .RETURN => ⟨2, 0⟩ | .DELEGATECALL => ⟨6, 1⟩ | .CREATE2 => ⟨4, 1⟩
  | .STATICCALL => ⟨6, 1⟩ | .REVERT => ⟨2, 0⟩ | .INVALID => ⟨0, 0⟩
  | .SELFDESTRUCT => ⟨1, 0⟩

/-- Modelled from the spec: `Instruction::stops()` — true for the
halting opcodes STOP, RETURN, REVERT, SELFDESTRUCT and INVALID (§4.1). -/
def Instruction.stops : Instruction → Bool
  | .STOP | .RETURN | .REVERT | .SELFDESTRUCT | .INVALID => true
  | _ => false

/-- Modelled from the spec: `Instruction::is_jump()` — true for JUMP and
JUMPI (§4.1). -/
def Instruction.is_jump : Instruction → Bool
  | .JUMP | .JUMPI => true
  | _ => false

/-- Modelled from the spec: `Instruction::push_bytes()` — `some n` for
PUSHn (the number of immediate bytes), `none` otherwise (§4.1). -/
def Instruction.push_bytes : Instruction → Option Nat
  | .PUSH n => some n
  | _ => none

/-- Modelled from the spec: `Instruction::pushes_constant()` — true for
the PUSH family and PC (§4.1). -/
def Instruction.pushes_constant : Instruction → Bool
  | .PUSH _ | .PC => true
  | _ => false

/-- Modelled from the spec: `Instruction::dup_position()` — `some (k-1)`
for DUPk, so DUP1 yields 0 (§4.1). -/
def Instruction.dup_position : Instruction → Option Nat
  | .DUP n => some (n - 1)
  | _ => none

/-- Modelled from the spec: `Instruction::swap_position()` — `some k` for
SWAPk, so SWAP1 yields 1 (§4.1). -/
def Instruction.swap_position : Instruction → Option Nat
  | .SWAP n => some n
  | _ => none

/-- Decoding of the bytes 0x00-0x0f (arithmetic opcodes). -/
def Instruction.from0 (b : Nat) : Option Instruction :=
  if b = 0x00 then some .STOP
  else if b = 0x01 then some .ADD
  else if b = 0x02 then some .MUL
  else if b = 0x03 then some .SUB
  else if b = 0x04 then some .DIV
  else if b = 0x05 then some .SDIV
  else if b = 0x06 then some .MOD
  else if b = 0x07 then some .SMOD
  else if b = 0x08 then some .ADDMOD
  else if b = 0x09 then some .MULMOD
  else if b = 0x0a then some .EXP
  else if b = 0x0b then some .SIGNEXTEND
  else none

/-- Decoding of the bytes 0x10-0x1f (comparison and bitwise opcodes). -/
def Instruction.from1 (b : Nat) : Option Instruction :=
  if b = 0x10 then some .LT
  else if b = 0x11 then some .GT
  else if b = 0x12 then some .SLT
  else if b = 0x13 then some .SGT
  else if b = 0x14 then some .EQ
  else if b = 0x15 then some .ISZERO
  else if b = 0x16 then some .AND
  else if b = 0x17 then some .OR
  else if b = 0x18 then some .XOR
  else if b = 0x19 then some .NOT
  else if b = 0x1a then some .BYTE
  else if b = 0x1b then some .SHL
  else if b = 0x1c then some .SHR
  else if b = 0x1d then some .SAR
  else none

/-- Decoding of the bytes 0x20-0x2f (SHA3). -/
def Instruction.from2 (b : Nat) : Option Instruction :=
  if b = 0x20 then some .SHA3 else none

/-- Decoding of the bytes 0x30-0x3f (environment opcodes). -/
def Instruction.from3 (b : Nat) : Option Instruction :=
  if b = 0x30 then some .ADDRESS
  else if b = 0x31 then some .BALANCE
  else if b = 0x32 then some .ORIGIN
  else if b = 0x33 then some .CALLER
  else if b = 0x34 then some .CALLVALUE
  else if b = 0x35 then some .CALLDATALOAD
  else if b = 0x36 then some .CALLDATASIZE
  else if b = 0x37 then some .CALLDATACOPY
  else if b = 0x38 then some .CODESIZE
  else if b = 0x39 then some .CODECOPY
  else if b = 0x3a then some .GASPRICE
  else if b = 0x3b then some .EXTCODESIZE
  else if b = 0x3c then some .EXTCODECOPY
  else if b = 0x3d then some .RETURNDATASIZE
  else if b = 0x3e then some .RETURNDATACOPY
  else if b = 0x3f then some .EXTCODEHASH
  else none

/-- Decoding of the bytes 0x40-0x4f (block opcodes). -/
def Instruction.from4 (b : Nat) : Option Instruction :=
  if b = 0x40 then some .BLOCKHASH
  else if b = 0x41 then some .COINBASE
  else if b = 0x42 then some .TIMESTAMP
  else if b = 0x43 then some .NUMBER
  else if b = 0x44 then some .DIFFICULTY
  else if b = 0x45 then some .GASLIMIT
  else if b = 0x46 then some .CHAINID
  else if b = 0x47 then some .SELFBALANCE
  else none

/-- Decoding of the bytes 0x50-0x5f (stack, memory, storage and flow
opcodes; 0x5B is JUMPDEST). -/
def Instruction.from5 (b : Nat) : Option Instruction :=
  if b = 0x50 then some .POP
  else if b = 0x51 then some .MLOAD
  else if b = 0x52 then some .MSTORE
  else if b = 0x53 then some .MSTORE8
  else if b = 0x54 then some .SLOAD
  else if b = 0x55 then some .SSTORE
  else if b = 0x56 then some .JUMP
  else if b = 0x57 then some .JUMPI
  else if b = 0x58 then some .PC
  else if b = 0x59 then some .MSIZE
  else if b = 0x5a then some .GAS
  else if b = 0x5b then some .JUMPDEST
  else none

/-- Decoding of the bytes 0xf0-0xff (call, create and halt opcodes). -/
def Instruction.fromF (b : Nat) : Option Instruction :=
  if b = 0xf0 then some .CREATE
  else if b = 0xf1 then some .CALL
  else if b = 0xf2 then some .CALLCODE
  else if b = 0xf3 then some .RETURN
  else if b = 0xf4 then some .DELEGATECALL
  else if b = 0xf5 then some .CREATE2
  else if b = 0xfa then some .STATICCALL
  else if b = 0xfd then some .REVERT
  else if b = 0xfe then some .INVALID
  else if b = 0xff then some .SELFDESTRUCT
  else none

/-- Modelled from the spec: `Instruction::from_u8` — the canonical EVM
byte-to-opcode decoding table used throughout the spec (0x5B is JUMPDEST,
0x60..0x7F are PUSH1..PUSH32, 0x80..0x8F DUP1..DUP16, 0x90..0x9F
SWAP1..SWAP16, 0xA0..0xA4 LOG0..LOG4); bytes with no assigned opcode
decode to `none`.  The table is split into 16-byte buckets. -/
def Instruction.from_u8 (b : Nat) : Option Instruction :=
  if b < 0x10 then from0 b
  else if b < 0x20 then from1 b
  else if b < 0x30 then from2 b
  else if b < 0x40 then from3 b
  else if b < 0x50 then from4 b
  else if b < 0x60 then from5 b
  else if b < 0x80 then some (.PUSH (b - 0x5f))
  else if b < 0x90 then some (.DUP (b - 0x7f))
  else if b < 0xa0 then some (.SWAP (b - 0x8f))
  else if b < 0xb0 then (if b ≤ 0xa4 then some (.LOG (b - 0xa0)) else none)
  else if 0xf0 ≤ b ∧ b < 0x100 then fromF b
  else none

/-- Mirror of Rust's `Result` type for the `opcode` field of
`IInstruction` (`Result<Instruction, u8>`). -/
inductive RustResult (T E : Type) : Type where
  | Ok (v : T)
  | Err (e : E)
deriving DecidableEq

/-- `Operand` from `analysis.rs`: the abstract values flowing through the
IR.  The payloads mirror the Rust tuples `(IInstRef, usize)` and
`(IInstRef, U256)` (the `U256` embedded as `Nat`). -/
inductive Operand : Type where
  | StackRef (p : Nat × Nat)
  | StackPop (p : Nat × Nat)
  | Constant (p : Nat × Nat)
  | InstructionRef (p : Nat × Nat)
deriving DecidableEq

/-- `IInstruction` from `analysis.rs`. -/
structure IInstruction : Type where
  address : Nat
  global_idx : Nat
  opcode : RustResult Instruction Nat
  operands : Option (List Operand)
  is_constant : Bool
  ignoreable : Bool
  value : Option (List Nat)
deriving DecidableEq

/-- `BasicBlock` from `analysis.rs`.  The `stack_sets` `BTreeMap` is
embedded as a key-sorted association list. -/
structure BasicBlock : Type where
  address : Nat
  instructions : List IInstruction
  returns : List Operand
  stack_sets : List (Nat × Operand)
  pops_at_end : Nat
  optimized : Bool
  ends_on_invalid : Bool
deriving DecidableEq

/-- `CodeMeta` from `analysis.rs`: jumpdest and code/data bit vectors,
embedded as `List Bool` of the code's length. -/
structure CodeMeta : Type where
  jumpdests : List Bool
  iscode : List Bool
deriving DecidableEq

/-- The inner marking loop `for j in lb..up { iscode.set(j, false) }` of
`CodeMeta::new`. -/
def setFalseRange (l : List Bool) (lb up : Nat) : List Bool :=
  if lb < up then setFalseRange (l.set lb false) (lb + 1) up else l
termination_by up - lb

/-- The scanning loop of `CodeMeta::new` (`analysis.rs` lines 40-74): the
cursor starts at `i` and advances by one byte, or past the immediate
bytes of a PUSH. -/
def codeMetaLoop (code : List Nat) (i : Nat) (jumpdests iscode : List Bool) :
    List Bool × List Bool :=
  if h : i < code.length then
    match Instruction.from_u8 (code.getD i 0) with
    | some inst =>
      if inst = Instruction.JUMPDEST then
        codeMetaLoop code (i + 1) (jumpdests.set i true) iscode
      else
        match inst.push_bytes with
        | some v =>
          let lb := min (i + 1) code.length
          let up := min (i + 1 + v) code.length
          codeMetaLoop code (i + v + 1) jumpdests (setFalseRange iscode lb up)
        | none => codeMetaLoop code (i + 1) jumpdests iscode
    | none => codeMetaLoop code (i + 1) jumpdests iscode
  else (jumpdests, iscode)
termination_by code.length - i
decreasing_by all_goals omega

/-- `CodeMeta::new` from `analysis.rs`: scan the code once, starting from
all-false jumpdest flags and all-true instruction flags. -/
def CodeMeta.new (code : List Nat) : CodeMeta :=
  let p := codeMetaLoop code 0 (List.replicate code.length false)
    (List.replicate code.length true)
  { jumpdests := p.1, iscode := p.2 }

/-- `CodeMeta::is_valid_jumpdest`. -/
def CodeMeta.is_valid_jumpdest (m : CodeMeta) (position : Nat) : Bool :=
  if position ≥ m.jumpdests.length then false else m.jumpdests.getD position false

/-- `CodeMeta.is_instruction`. -/
def CodeMeta.is_instruction (m : CodeMeta) (position : Nat) : Bool :=
  if position ≥ m.iscode.length then false else m.iscode.getD position false

/-- The cursor advance of the scan at offset `i`: one byte, or one byte
plus the PUSH immediate width (both `CodeMeta::new` and
`BasicBlock::parse` advance exactly like this). -/
def scanStep (code : List Nat) (i : Nat) : Nat :=
  match Instruction.from_u8 (code.getD i 0) with
  | some inst => inst.push_bytes.getD 0 + 1
  | none => 1

theorem scanStep_pos (code : List Nat) (i : Nat) : 1 ≤ scanStep code i := by
  unfold scanStep
  split <;> omega

/-- The set of byte offsets visited as instruction boundaries by the
left-to-right scan: the cursor of `CodeMeta::new` (which advances exactly
like the `pc` of `BasicBlock::parse`). -/
def instructionBoundaries (code : List Nat) (i : Nat) : List Nat :=
  if h : i < code.length then
    i :: instructionBoundaries code (i + scanStep code i)
  else []
termination_by code.length - i
decreasing_by
  have := scanStep_pos code i
  omega

/-- Big-endian interpretation of a byte slice, the embedding of
`U256::from_big_endian`. -/
def fromBigEndian (l : List Nat) : Nat :=
  l.foldl (fun acc b => acc * 256 + b) 0

/-- The `next_is_jumpdest` test of `BasicBlock::parse` (`analysis.rs`
lines 276-284): whether the byte at the post-immediate position decodes
to JUMPDEST. -/
def nextIsJumpdest (bytecode : List Nat) (next_pc : Nat) : Bool :=
  if next_pc < bytecode.length then
    match Instruction.from_u8 (bytecode.getD next_pc 0) with
    | some jdest => jdest = Instruction.JUMPDEST
    | none => false
  else false

/-- The block-termination test of `BasicBlock::parse` (line 285): the
instruction halts, jumps, or the next instruction is a JUMPDEST. -/
def shouldBreak (bytecode : List Nat) (pc : Nat) (inst : Instruction) : Bool :=
  inst.stops || inst.is_jump ||
    nextIsJumpdest bytecode (pc + 1 + inst.push_bytes.getD 0)

/-- The `value` field computed by `BasicBlock::parse` (lines 292-316):
the PUSH immediate (big-endian, truncated at the end of the code, zero
when the opcode is the last byte), the `pc` for PC, and the code length
for CODESIZE. -/
def parseValue (bytecode : List Nat) (pc : Nat) (inst : Instruction) :
    Option (List Nat) :=
  let value : Option (List Nat) :=
    if inst.pushes_constant then
      match inst.push_bytes with
      | some n =>
        if pc + 1 + n < bytecode.length then
          some [fromBigEndian ((bytecode.drop (pc + 1)).take n)]
        else if pc + 1 = bytecode.length then
          some [0]
        else
          some [fromBigEndian (bytecode.drop (pc + 1))]
      | none =>
        if inst = Instruction.PC then some [pc]
        else none
    else none
  if inst = Instruction.CODESIZE then some [bytecode.length] else value

/-- The pre-optimization `operands` computed by `BasicBlock::parse`
(lines 321-338): a `StackRef` for DUP, two for SWAP, `StackPop`s for
every other instruction with arguments. -/
def parseOperands (idx : Nat) (inst : Instruction) : Option (List Operand) :=
  match inst.dup_position with
  | some pos => some [Operand.StackRef (idx, pos)]
  | none =>
    match inst.swap_position with
    | some pos =>
      some [Operand.StackRef (idx, 0), Operand.StackRef (idx, pos)]
    | none =>
      if inst.info.args = 0 then none
      else some ((List.range inst.info.args).map
        (fun i => Operand.StackPop (idx, i)))

/-- The `IInstruction` built by one iteration of `BasicBlock::parse` for
a decodable opcode. -/
def parseIInst (bytecode : List Nat) (pc idx gidx : Nat)
    (inst : Instruction) : IInstruction :=
  { address := pc, global_idx := gidx, opcode := RustResult.Ok inst,
    operands := parseOperands idx inst,
    is_constant := inst.pushes_constant, ignoreable := false,
    value := parseValue bytecode pc inst }

/-- The loop of `BasicBlock::parse` (`analysis.rs` lines 258-360):
builds the instruction list, the `ends_on_invalid` flag and the next
`pc`.  `idx` is the within-block instruction index and `gidx` the global
instruction index. -/
def parseLoop (bytecode : List Nat) (pc idx gidx : Nat) :
    List IInstruction × Bool × Nat :=
  if h : pc < bytecode.length then
    match Instruction.from_u8 (bytecode.getD pc 0) with
    | some inst =>
      if shouldBreak bytecode pc inst then
        ([parseIInst bytecode pc idx gidx inst], false,
         pc + inst.push_bytes.getD 0 + 1)
      else
        let rest := parseLoop bytecode (pc + inst.push_bytes.getD 0 + 1)
          (idx + 1) (gidx + 1)
        (parseIInst bytecode pc idx gidx inst :: rest.1, rest.2.1, rest.2.2)
    | none =>
      ([{ address := pc, global_idx := gidx,
          opcode := RustResult.Err (bytecode.getD pc 0), operands := none,
          is_constant := false, ignoreable := false, value := none }],
       true, pc + 1)
  else ([], false, pc)
termination_by bytecode.length - pc
decreasing_by omega

/-- `BasicBlock::parse` from `analysis.rs`: assembles the block structure
(fresh `returns`, `stack_sets`, `pops_at_end`, not yet optimized) and the
next byte offset. -/
def BasicBlock.parse (bytecode : List Nat) (start_index inst_global_index : Nat) :
    BasicBlock × Nat :=
  let r := parseLoop bytecode start_index 0 inst_global_index
  ({ address := start_index, instructions := r.1, returns := [],
     stack_sets := [], pops_at_end := 0, optimized := false,
     ends_on_invalid := r.2.1 }, r.2.2)

/-- The `const_eval_result` computation of `evaluate_opcode`
(`analysis.rs` lines 623-821): constant folding and algebraic identities.
`U256` arithmetic is embedded as `Nat` arithmetic reduced mod `2 ^ 256`
where the Rust operations wrap (`overflowing_add/mul/sub/pow`, `<<`), and
plain `Nat` division/remainder/bitwise operations elsewhere, matching
`U256` on the in-range values that `Constant` operands carry. -/
def const_eval (evm_inst : Instruction) (idx : Nat) (args : List Operand) :
    Option Operand :=
  if args.length = 1 then
    match args.getD 0 (Operand.StackRef (0, 0)) with
    | Operand.Constant (_, a) =>
      match evm_inst with
      | Instruction.ISZERO =>
        some (Operand.Constant (idx, if a = 0 then 1 else 0))
      | Instruction.NOT =>
        some (Operand.Constant (idx, (U256LIMIT - 1) - a))
      | _ => none
    | _ => none
  else if args.length = 2 then
    match args.getD 0 (Operand.StackRef (0, 0)),
          args.getD 1 (Operand.StackRef (0, 0)) with
    | Operand.Constant (_, a), Operand.Constant (_, b) =>
      match evm_inst with
      | Instruction.ADD => some (Operand.Constant (idx, (a + b) % U256LIMIT))
      | Instruction.MUL => some (Operand.Constant (idx, (a * b) % U256LIMIT))
      | Instruction.SUB =>
        some (Operand.Constant (idx, (a + (U256LIMIT - b)) % U256LIMIT))
      | Instruction.DIV =>
        if b = 0 then some (Operand.Constant (idx, 0))
        else some (Operand.Constant (idx, a / b))
      | Instruction.MOD =>
        if b = 0 then some (Operand.Constant (idx, 0))
        else some (Operand.Constant (idx, a % b))
      | Instruction.EXP => some (Operand.Constant (idx, (a ^ b) % U256LIMIT))
      | Instruction.LT =>
        some (Operand.Constant (idx, if a < b then 1 else 0))
      | Instruction.GT =>
        some (Operand.Constant (idx, if b < a then 1 else 0))
      | Instruction.EQ =>
        some (Operand.Constant (idx, if a = b then 1 else 0))
      | Instruction.AND => some (Operand.Constant (idx, Nat.land a b))
      | Instruction.OR => some (Operand.Constant (idx, Nat.lor a b))
      | Instruction.XOR => some (Operand.Constant (idx, Nat.xor a b))
      | Instruction.BYTE =>
        if a < 32 then
          some (Operand.Constant (idx, Nat.land (b >>> (8 * (31 - a))) 0xff))
        else some (Operand.Constant (idx, 0))
      | Instruction.SHR =>
        if a ≤ USIZE_MAX then some (Operand.Constant (idx, b >>> a))
        else some (Operand.Constant (idx, 0))
      | Instruction.SHL =>
        if a ≤ USIZE_MAX then
          some (Operand.Constant (idx, (b <<< a) % U256LIMIT))
        else some (Operand.Constant (idx, 0))
      | _ => none
    | a0, a1 =>
      if evm_inst = Instruction.ADD then
        match a0, a1 with
        | x, Operand.Constant (_, 0) => some x
        | Operand.Constant (_, 0), x => some x
        | _, _ => none
      else if evm_inst = Instruction.SUB then
        match a0, a1 with
        | x, Operand.Constant (_, 0) => some x
        | _, _ => none
      else if evm_inst = Instruction.MUL then
        match a0, a1 with
        | x, Operand.Constant (_, 1) => some x
        | Operand.Constant (_, 1), x => some x
        | _, Operand.Constant (_, 0) => some (Operand.Constant (idx, 0))
        | Operand.Constant (_, 0), _ => some (Operand.Constant (idx, 0))
        | _, _ => none
      else if evm_inst = Instruction.DIV then
        match a0, a1 with
        | _, Operand.Constant (_, 0) => some (Operand.Constant (idx, 0))
        | x, Operand.Constant (_, 1) => some x
        | Operand.Constant (_, 0), _ => some (Operand.Constant (idx, 0))
        | _, _ => none
      else if evm_inst = Instruction.EXP then
        match a0, a1 with
        | _, Operand.Constant (_, 0) => some (Operand.Constant (idx, 1))
        | x, Operand.Constant (_, 1) => some x
        | Operand.Constant (_, 0), _ => some (Operand.Constant (idx, 0))
        | _, _ => none
      else if evm_inst = Instruction.SHR ∨ evm_inst = Instruction.SHL then
        match a0, a1 with
        | Operand.Constant (_, 0), arg1 => some arg1
        | _, _ => none
      else none
  else if args.length = 3 then
    match args.getD 0 (Operand.StackRef (0, 0)),
          args.getD 1 (Operand.StackRef (0, 0)),
          args.getD 2 (Operand.StackRef (0, 0)) with
    | Operand.Constant _, Operand.Constant _, Operand.Constant (_, c) =>
      match evm_inst with
      | Instruction.ADDMOD =>
        if c ≠ 0 then none else some (Operand.Constant (idx, 0))
      | Instruction.MULMOD =>
        if c ≠ 0 then none else some (Operand.Constant (idx, 0))
      | _ => none
    | _, _, _ => none
  else none

/-- `evaluate_opcode` from `analysis.rs` (lines 604-839): result operand
vector and constant flag.  When the fold produced fewer results than the
opcode's `ret` arity, the rest are filled with `InstructionRef`s and the
constant flag is cleared. -/
def evaluate_opcode (evm_inst : Instruction) (idx : Nat) (args : List Operand) :
    List Operand × Bool :=
  let base : List Operand :=
    match const_eval evm_inst idx args with
    | some res => [res]
    | none => []
  if base.length < evm_inst.info.ret then
    (base ++ (List.range (evm_inst.info.ret - base.length)).map
       (fun k => Operand.InstructionRef (idx, base.length + k)), false)
  else (base, (const_eval evm_inst idx args).isSome)

/-- The argument-collection loop of the generic-instruction case of
`emulate_bb` (`analysis.rs` lines 501-515): pop `count` operands, or
synthesize entry references (incrementing `pops_at_end`) once the
emulated stack is exhausted.  `cur_pops` and `cur_len` are the values of
`pops_at_end` and the stack length captured before the loop. -/
def collectArgs (L cur_pops cur_len : Nat) :
    Nat → Nat → List Operand → Nat → List Operand × List Operand × Nat
  | _, 0, stack, pops => ([], stack, pops)
  | args_idx, count + 1, v :: stack, pops =>
    let r := collectArgs L cur_pops cur_len (args_idx + 1) count stack pops
    (v :: r.1, r.2.1, r.2.2)
  | args_idx, count + 1, [], pops =>
    let a := Operand.StackRef (0, args_idx + cur_pops - cur_len + L)
    let r := collectArgs L cur_pops cur_len (args_idx + 1) count [] (pops + 1)
    (a :: r.1, r.2.1, r.2.2)

/-- `VecDeque::swap(0, pos)` on the emulated stack. -/
def listSwap (l : List Operand) (pos : Nat) : List Operand :=
  (l.set 0 (l.getD pos (Operand.StackRef (0, 0)))).set pos
    (l.getD 0 (Operand.StackRef (0, 0)))

/-- One iteration of the emulation loop of `emulate_bb` (`analysis.rs`
lines 389-541) for a decodable instruction: the updated instruction, the
new emulated stack (head is the top), and the new `pops_at_end`.  `L` is
the recorded initial stack length (`evm_stack_initial_len`). -/
def emuStep (L idx : Nat) (inst : IInstruction) (evm_inst : Instruction)
    (stack : List Operand) (pops : Nat) :
    IInstruction × List Operand × Nat :=
  if evm_inst.pushes_constant then
    let v := (inst.value.getD []).getD 0 0
    ({ inst with ignoreable := true },
     Operand.Constant (idx, v) :: stack, pops)
  else
    match evm_inst.dup_position with
    | some pos =>
      if pos < stack.length then
        let x := stack.getD pos (Operand.StackRef (0, 0))
        let inst :=
          match x with
          | Operand.Constant (_, v) =>
            { inst with ignoreable := true, is_constant := true,
                        value := some [v] }
          | _ => { inst with ignoreable := true }
        ({ inst with operands := some [x] }, x :: stack, pops)
      else
        let pos_at_bb_start := pos - stack.length + L + pops
        let a := Operand.StackRef (0, pos_at_bb_start)
        ({ inst with ignoreable := true, operands := some [a] },
         a :: stack, pops)
    | none =>
      match evm_inst.swap_position with
      | some pos =>
        if stack.length = 0 then
          ({ inst with ignoreable := false,
                       operands := some [Operand.StackRef (0, 0 + pops + L),
                                         Operand.StackRef (0, pos + pops + L)] },
           stack, pops)
        else if pos ≥ stack.length then
          let pos_at_bb_start := pos - stack.length + L + pops
          match stack with
          | top :: stack_tail =>
            ({ inst with ignoreable := false,
                         operands := some [top,
                           Operand.StackRef (0, pos_at_bb_start)] },
             Operand.StackRef (0, pos_at_bb_start) :: stack_tail, pops)
          | [] => (inst, stack, pops)
        else
          ({ inst with ignoreable := true,
                       operands := some [stack.getD 0 (Operand.StackRef (0, 0)),
                         stack.getD pos (Operand.StackRef (0, 0))] },
           listSwap stack pos, pops)
      | none =>
        if evm_inst = Instruction.POP then
          match stack with
          | _ :: stack_tail =>
            ({ inst with ignoreable := true, operands := none },
             stack_tail, pops)
          | [] =>
            ({ inst with ignoreable := true, operands := none },
             [], pops + 1)
        else if evm_inst = Instruction.JUMPDEST then
          ({ inst with ignoreable := true }, stack, pops)
        else
          let r := collectArgs L pops stack.length 0 evm_inst.info.args
            stack pops
          let args := r.1
          let er := evaluate_opcode evm_inst idx args
          let inst :=
            if er.2 then
              { inst with is_constant := true,
                          value := some (er.1.filterMap
                            (fun x => match x with
                              | Operand.Constant (_, v) => some v
                              | _ => none)),
                          ignoreable := true }
            else inst
          let stack2 := er.1.foldl (fun s v => v :: s) r.2.1
          let inst :=
            if 0 < args.length then { inst with operands := some args }
            else inst
          (inst, stack2, r.2.2)

/-- The emulation loop of `emulate_bb` over the instruction list, with
`idx` the index of the head instruction.  Returns the rewritten
instructions, the final stack and `pops_at_end`, and `true` when every
instruction was decodable (`false` mirrors the early `return None`, which
leaves the already-rewritten prefix in place). -/
def emulateLoop (L : Nat) :
    List IInstruction → Nat → List Operand → Nat →
    List IInstruction × List Operand × Nat × Bool
  | [], _, stack, pops => ([], stack, pops, true)
  | inst :: rest, idx, stack, pops =>
    match inst.opcode with
    | RustResult.Err _ => (inst :: rest, stack, pops, false)
    | RustResult.Ok evm_inst =>
      let s := emuStep L idx inst evm_inst stack pops
      let r := emulateLoop L rest (idx + 1) s.2.1 s.2.2
      (s.1 :: r.1, r.2.1, r.2.2.1, r.2.2.2)

/-- Ordered-map insertion for the `stack_sets` `BTreeMap`. -/
def mapInsert (sets : List (Nat × Operand)) (k : Nat) (v : Operand) :
    List (Nat × Operand) :=
  match sets with
  | [] => [(k, v)]
  | (k1, v1) :: rest =>
    if k < k1 then (k, v) :: (k1, v1) :: rest
    else if k = k1 then (k, v) :: rest
    else (k1, v1) :: mapInsert rest k v

/-- The final enumeration loop of `emulate_bb` (lines 578-584): record a
`stack_sets` entry for every leftover stack slot that no longer holds its
entry sentinel. -/
def buildStackSets (items : List Operand) (offset : Nat)
    (sets : List (Nat × Operand)) : List (Nat × Operand) :=
  items.enum.foldl
    (fun acc p =>
      if p.2 ≠ Operand.StackRef (0, p.1 + offset) then
        mapInsert acc (p.1 + offset) p.2
      else acc)
    sets

/-- `BasicBlock::emulate_bb` from `analysis.rs` (lines 374-587): seed the
stack with 32 entry sentinels, run the loop and finalize.  Returns the
mutated block together with the `Option` of return operands (`none`
mirrors both the early `return None` on an undecodable instruction and
the non-positive stack delta cases). -/
def BasicBlock.emulate_bb (bb : BasicBlock) :
    BasicBlock × Option (List Operand) :=
  let stack0 := (List.range 32).map (fun i => Operand.StackRef (0, i))
  let L := stack0.length
  let r := emulateLoop L bb.instructions 0 stack0 bb.pops_at_end
  let insts := r.1
  let stack := r.2.1
  let pops := r.2.2.1
  if r.2.2.2 then
    if stack.length > L then
      let new_stack_slots_count := stack.length - L
      let ret := stack.take new_stack_slots_count
      let rest := stack.drop new_stack_slots_count
      ({ bb with instructions := insts, pops_at_end := pops,
                 stack_sets := buildStackSets rest 0 bb.stack_sets },
       some ret)
    else if stack.length < L then
      let offset := L - stack.length
      ({ bb with instructions := insts, pops_at_end := pops + offset,
                 stack_sets := buildStackSets stack offset bb.stack_sets },
       none)
    else
      ({ bb with instructions := insts, pops_at_end := pops,
                 stack_sets := buildStackSets stack 0 bb.stack_sets },
       none)
  else
    ({ bb with instructions := insts, pops_at_end := pops }, none)

/-- `BasicBlock::optimize` from `analysis.rs` (lines 591-600). -/
def BasicBlock.optimize (bb : BasicBlock) : BasicBlock :=
  if bb.optimized then bb
  else
    let bb1 : BasicBlock := { bb with optimized := true }
    let r := bb1.emulate_bb
    match r.2 with
    | some stack_remainder => { r.1 with returns := stack_remainder }
    | none => r.1

theorem parseLoop_pc_le (bytecode : List Nat) :
    ∀ pc idx gidx, pc ≤ (parseLoop bytecode pc idx gidx).2.2 := by
  intro pc idx gidx
  induction pc, idx, gidx using parseLoop.induct bytecode with
  | case1 pc idx gidx h inst hinst hsb =>
    unfold parseLoop
    simp only [dif_pos h, hinst, if_pos hsb]
    omega
  | case2 pc idx gidx h inst hinst hsb ih =>
    unfold parseLoop
    simp only [dif_pos h, hinst, if_neg hsb]
    omega
  | case3 pc idx gidx h hinst =>
    unfold parseLoop
    simp only [dif_pos h, hinst]
    omega
  | case4 pc idx gidx h =>
    unfold parseLoop
    rw [dif_neg h]

theorem parseLoop_pc_lt (bytecode : List Nat) (pc idx gidx : Nat)
    (h : pc < bytecode.length) :
    pc < (parseLoop bytecode pc idx gidx).2.2 := by
  rcases hinst : Instruction.from_u8 (bytecode.getD pc 0) with _ | inst
  · unfold parseLoop
    simp only [dif_pos h, hinst]
    omega
  · by_cases hsb : shouldBreak bytecode pc inst
    · unfold parseLoop
      simp only [dif_pos h, hinst, if_pos hsb]
      omega
    · have hle := parseLoop_pc_le bytecode
        (pc + inst.push_bytes.getD 0 + 1) (idx + 1) (gidx + 1)
      unfold parseLoop
      simp only [dif_pos h, hinst, if_neg hsb]
      omega

/-- The block-building loop of `Program::new` (`analysis.rs` lines
851-858). -/
def programLoop (bytecode : List Nat) (index inst_global_index : Nat) :
    List BasicBlock :=
  if h : index < bytecode.length then
    let r := BasicBlock.parse bytecode index inst_global_index
    r.1 :: programLoop bytecode r.2
      (inst_global_index + r.1.instructions.length)
  else []
termination_by bytecode.length - index
decreasing_by
  have h2 := parseLoop_pc_lt bytecode index 0 inst_global_index h
  simp only [BasicBlock.parse]
  omega

/-- `Program` from `analysis.rs`. -/
structure Program : Type where
  bytecode : List Nat
  basic_blocks : List BasicBlock
  meta : CodeMeta
deriving DecidableEq

/-- `Program::new` from `analysis.rs` (lines 849-864). -/
def Program.new (bytecode : List Nat) : Program :=
  { bytecode := bytecode, meta := CodeMeta.new bytecode,
    basic_blocks := programLoop bytecode 0 0 }

/-- `Program::optimize` from `analysis.rs` (lines 866-870). -/
def Program.optimize (p : Program) : Program :=
  { p with basic_blocks := p.basic_blocks.map BasicBlock.optimize }

/-- Explicit form of the parsed block for the bytecode `8056`
(DUP1; JUMP) — the `no_constant_prop_possible` test input. -/
theorem parse_dup_jump : BasicBlock.parse [0x80, 0x56] 0 0 =
    ({ address := 0,
       instructions := [
         { address := 0, global_idx := 0,
           opcode := RustResult.Ok (Instruction.DUP 1),
           operands := some [Operand.StackRef (0, 0)], is_constant := false,
           ignoreable := false, value := none },
         { address := 1, global_idx := 1,
           opcode := RustResult.Ok Instruction.JUMP,
           operands := some [Operand.StackPop (1, 0)], is_constant := false,
           ignoreable := false, value := none }],
       returns := [], stack_sets := [], pops_at_end := 0, optimized := false,
       ends_on_invalid := false }, 2) := by
  simp [BasicBlock.parse, parseLoop, shouldBreak, nextIsJumpdest, parseIInst,
        parseValue, parseOperands, Instruction.from_u8, Instruction.from0, Instruction.from1,
        Instruction.from2, Instruction.from3, Instruction.from4,
        Instruction.from5, Instruction.fromF, Instruction.stops,
        Instruction.is_jump, Instruction.push_bytes, Instruction.pushes_constant,
        Instruction.dup_position, Instruction.swap_position, Instruction.info,
        fromBigEndian, List.range]
  decide

/-- Explicit form of the parsed block for `60ff56` (PUSH1 0xff; JUMP) —
the `push_constant_prop` test input. -/
theorem parse_push_jump : BasicBlock.parse [0x60, 0xff, 0x56] 0 0 =
    ({ address := 0,
       instructions := [
         { address := 0, global_idx := 0,
           opcode := RustResult.Ok (Instruction.PUSH 1),
           operands := none, is_constant := true,
           ignoreable := false, value := some [0xff] },
         { address := 2, global_idx := 1,
           opcode := RustResult.Ok Instruction.JUMP,
           operands := some [Operand.StackPop (1, 0)], is_constant := false,
           ignoreable := false, value := none }],
       returns := [], stack_sets := [], pops_at_end := 0, optimized := false,
       ends_on_invalid := false }, 3) := by
  simp [BasicBlock.parse, parseLoop, shouldBreak, nextIsJumpdest, parseIInst,
        parseValue, parseOperands, Instruction.from_u8, Instruction.from0, Instruction.from1,
        Instruction.from2, Instruction.from3, Instruction.from4,
        Instruction.from5, Instruction.fromF, Instruction.stops,
        Instruction.is_jump, Instruction.push_bytes, Instruction.pushes_constant,
        Instruction.dup_position, Instruction.swap_position, Instruction.info,
        fromBigEndian, List.range]
  decide

example :
    ((BasicBlock.optimize (BasicBlock.parse [0x60, 0xff, 0x56] 0 0).1).instructions.map
      (fun i => i.operands)) = [none, some [Operand.Constant (0, 0xff)]] := by
  rw [show (BasicBlock.parse [0x60, 0xff, 0x56] 0 0).1 = _ from
    congrArg Prod.fst parse_push_jump]
  decide

/-- Explicit form of the parsed block for `500100` (POP; ADD; STOP) —
the `bb_args_pop_add` test input. -/
theorem parse_pop_add_stop : BasicBlock.parse [0x50, 0x01, 0x00] 0 0 =
    ({ address := 0,
       instructions := [
         { address := 0, global_idx := 0,
           opcode := RustResult.Ok Instruction.POP,
           operands := some [Operand.StackPop (0, 0)], is_constant := false,
           ignoreable := false, value := none },
         { address := 1, global_idx := 1,
           opcode := RustResult.Ok Instruction.ADD,
           operands := some [Operand.StackPop (1, 0), Operand.StackPop (1, 1)],
           is_constant := false, ignoreable := false, value := none },
         { address := 2, global_idx := 2,
           opcode := RustResult.Ok Instruction.STOP,
           operands := none, is_constant := false,
           ignoreable := false, value := none }],
       returns := [], stack_sets := [], pops_at_end := 0, optimized := false,
       ends_on_invalid := false }, 3) := by
  simp [BasicBlock.parse, parseLoop, shouldBreak, nextIsJumpdest, parseIInst,
        parseValue, parseOperands, Instruction.from_u8, Instruction.from0, Instruction.from1,
        Instruction.from2, Instruction.from3, Instruction.from4,
        Instruction.from5, Instruction.fromF, Instruction.stops,
        Instruction.is_jump, Instruction.push_bytes, Instruction.pushes_constant,
        Instruction.dup_position, Instruction.swap_position, Instruction.info,
        fromBigEndian, List.range]
  decide

example :
    (BasicBlock.optimize (BasicBlock.parse [0x50, 0x01, 0x00] 0 0).1).pops_at_end = 2 ∧
    ((BasicBlock.optimize (BasicBlock.parse [0x50, 0x01, 0x00] 0 0).1).instructions.map
      (fun i => i.operands)) =
      [none,
       some [Operand.StackRef (0, 1), Operand.StackRef (0, 2)],
       none] := by
  rw [show (BasicBlock.parse [0x50, 0x01, 0x00] 0 0).1 = _ from
    congrArg Prod.fst parse_pop_add_stop]
  exact ⟨by decide, by decide⟩

theorem emulate_bb_fields (bb : BasicBlock) :
    (bb.emulate_bb).1.optimized = bb.optimized ∧
    (bb.emulate_bb).1.returns = bb.returns ∧
    (bb.emulate_bb).1.address = bb.address ∧
    (bb.emulate_bb).1.ends_on_invalid = bb.ends_on_invalid := by
  unfold BasicBlock.emulate_bb
  dsimp only []
  split_ifs <;> exact ⟨rfl, rfl, rfl, rfl⟩

theorem optimize_of_optimized (bb : BasicBlock) (h : bb.optimized = true) :
    bb.optimize = bb := by
  unfold BasicBlock.optimize
  rw [if_pos h]

theorem optimize_optimized (bb : BasicBlock) :
    (bb.optimize).optimized = true := by
  unfold BasicBlock.optimize
  split_ifs with h
  · exact h
  · have hf := (emulate_bb_fields { bb with optimized := true }).1
    dsimp only []
    split
    · simpa using hf
    · simpa using hf

/-- Claim C5: calling `optimize()` a second time is a no-op — the block
state after two calls equals the state after one call (the `optimized`
flag short-circuits re-entry). -/
theorem C5_theorem (bb : BasicBlock) :
    (bb.optimize).optimize = bb.optimize :=
  optimize_of_optimized _ (optimize_optimized bb)

/-- Claim C1, counterexample: for the bytecode `8056` (DUP1; JUMP) the
optimized block's `returns` list is empty, not of length 1 as claimed —
the DUP's push and the JUMP's pop cancel, leaving the emulated stack at
its initial 32-sentinel depth. -/
theorem C1_counterexample :
    ((BasicBlock.parse [0x80, 0x56] 0 0).1.optimize).returns.length ≠ 1 := by
  rw [show (BasicBlock.parse [0x80, 0x56] 0 0).1 = _ from
    congrArg Prod.fst parse_dup_jump]
  decide

/-- Claim C1, amended: for the bytecode `8056` (DUP1; JUMP), after
optimization DUP1 is ignoreable with operand list `[StackRef (0, 0)]`,
JUMP's operand list is `[StackRef (0, 0)]`, and the block's `returns`
list has length 0 (not 1: the duped value is consumed by the JUMP). -/
theorem C1_theorem :
    (((BasicBlock.parse [0x80, 0x56] 0 0).1.optimize).instructions.map
      (fun i => (i.ignoreable, i.operands))) =
      [(true, some [Operand.StackRef (0, 0)]),
       (false, some [Operand.StackRef (0, 0)])] ∧
    ((BasicBlock.parse [0x80, 0x56] 0 0).1.optimize).returns.length = 0 := by
  rw [show (BasicBlock.parse [0x80, 0x56] 0 0).1 = _ from
    congrArg Prod.fst parse_dup_jump]
  exact ⟨by decide, by decide⟩

/-- Explicit form of the parsed block for `500c` (POP; then the
unassigned byte 0x0c): a block that ends on an invalid instruction with
one decodable instruction before it. -/
theorem parse_pop_invalid : BasicBlock.parse [0x50, 0x0c] 0 0 =
    ({ address := 0,
       instructions := [
         { address := 0, global_idx := 0,
           opcode := RustResult.Ok Instruction.POP,
           operands := some [Operand.StackPop (0, 0)], is_constant := false,
           ignoreable := false, value := none },
         { address := 1, global_idx := 1,
           opcode := RustResult.Err 0x0c,
           operands := none, is_constant := false,
           ignoreable := false, value := none }],
       returns := [], stack_sets := [], pops_at_end := 0, optimized := false,
       ends_on_invalid := true }, 2) := by
  simp [BasicBlock.parse, parseLoop, shouldBreak, nextIsJumpdest, parseIInst,
        parseValue, parseOperands, Instruction.from_u8, Instruction.from0, Instruction.from1,
        Instruction.from2, Instruction.from3, Instruction.from4,
        Instruction.from5, Instruction.fromF, Instruction.stops,
        Instruction.is_jump, Instruction.push_bytes, Instruction.pushes_constant,
        Instruction.dup_position, Instruction.swap_position, Instruction.info,
        fromBigEndian, List.range]
  decide

/-- Claim C2, counterexample: for the bytecode `500c` (POP; invalid byte
0x0c) the parsed block has `ends_on_invalid` set, yet `optimize()` does
not leave the instructions unchanged — the POP preceding the invalid
byte is rewritten (its `ignoreable` flag becomes true and its operand
list is cleared) before the emulator aborts. -/
theorem C2_counterexample :
    (BasicBlock.parse [0x50, 0x0c] 0 0).1.ends_on_invalid = true ∧
    ((BasicBlock.parse [0x50, 0x0c] 0 0).1.optimize).instructions ≠
      (BasicBlock.parse [0x50, 0x0c] 0 0).1.instructions := by
  rw [show (BasicBlock.parse [0x50, 0x0c] 0 0).1 = _ from
    congrArg Prod.fst parse_pop_invalid]
  exact ⟨by decide, by decide⟩

theorem parseLoop_eoi_err (bytecode : List Nat) :
    ∀ pc idx gidx, (parseLoop bytecode pc idx gidx).2.1 = true →
    ∃ i ∈ (parseLoop bytecode pc idx gidx).1, ∃ b,
      i.opcode = RustResult.Err b := by
  intro pc idx gidx
  induction pc, idx, gidx using parseLoop.induct bytecode with
  | case1 pc idx gidx h inst hinst hsb =>
    unfold parseLoop
    simp only [dif_pos h, hinst, if_pos hsb]
    intro hfalse
    cases hfalse
  | case2 pc idx gidx h inst hinst hsb ih =>
    unfold parseLoop
    simp only [dif_pos h, hinst, if_neg hsb]
    intro heoi
    rcases ih heoi with ⟨i, hi, b, hib⟩
    exact ⟨i, List.mem_cons_of_mem _ hi, b, hib⟩
  | case3 pc idx gidx h hinst =>
    unfold parseLoop
    simp only [dif_pos h, hinst]
    intro _
    exact ⟨_, List.mem_singleton_self _, bytecode.getD pc 0, rfl⟩
  | case4 pc idx gidx h =>
    unfold parseLoop
    simp only [dif_neg h]
    intro hfalse
    cases hfalse

theorem emulateLoop_err (L : Nat) :
    ∀ insts idx stack pops,
    (∃ i ∈ insts, ∃ b, i.opcode = RustResult.Err b) →
    (emulateLoop L insts idx stack pops).2.2.2 = false := by
  intro insts
  induction insts with
  | nil =>
    intro idx stack pops h
    simp at h
  | cons inst rest ih =>
    intro idx stack pops h
    unfold emulateLoop
    cases hop : inst.opcode with
    | Err b => rfl
    | Ok e =>
      rcases h with ⟨i, hi, b, hib⟩
      rcases List.mem_cons.mp hi with h1 | h2
      · subst h1
        rw [hop] at hib
        simp at hib
      · dsimp only []
        exact ih _ _ _ ⟨i, h2, b, hib⟩

theorem emulate_bb_err (bb : BasicBlock)
    (h : ∃ i ∈ bb.instructions, ∃ b, i.opcode = RustResult.Err b) :
    (bb.emulate_bb).2 = none := by
  unfold BasicBlock.emulate_bb
  dsimp only []
  rw [emulateLoop_err _ _ _ _ _ h]
  simp

theorem optimize_err (bb : BasicBlock)
    (h : ∃ i ∈ bb.instructions, ∃ b, i.opcode = RustResult.Err b) :
    (bb.optimize).returns = bb.returns ∧ (bb.optimize).optimized = true := by
  refine ⟨?_, optimize_optimized bb⟩
  unfold BasicBlock.optimize
  split_ifs with ho
  · rfl
  · dsimp only []
    rw [emulate_bb_err { bb with optimized := true } (by simpa using h)]
    simpa using (emulate_bb_fields { bb with optimized := true }).2.1

theorem emulateLoop_head_err (L : Nat) (inst : IInstruction)
    (rest : List IInstruction) (idx : Nat) (stack : List Operand)
    (pops b : Nat) (h : inst.opcode = RustResult.Err b) :
    emulateLoop L (inst :: rest) idx stack pops =
      (inst :: rest, stack, pops, false) := by
  unfold emulateLoop
  rw [h]

theorem optimize_head_err (bb : BasicBlock) (b : Nat)
    (hh : (bb.instructions.head?).map (fun i => i.opcode) =
      some (RustResult.Err b))
    (ho : bb.optimized = false) :
    bb.optimize = { bb with optimized := true } := by
  cases hl : bb.instructions with
  | nil =>
    rw [hl] at hh
    simp at hh
  | cons inst rest =>
    rw [hl] at hh
    simp only [List.head?_cons, Option.map_some'] at hh
    injection hh with hh
    unfold BasicBlock.optimize
    rw [if_neg (by rw [ho]; simp)]
    dsimp only []
    unfold BasicBlock.emulate_bb
    dsimp only []
    rw [show ({ bb with optimized := true } : BasicBlock).instructions =
      inst :: rest from by simpa using hl]
    rw [emulateLoop_head_err _ _ _ _ _ _ b hh]
    simp [hl]

/-- Claim C2, amended: for every parsed basic block whose terminal byte
fails to decode (`ends_on_invalid`), `optimize()` sets `optimized` to
true and leaves `returns` unchanged (the emulator's result is
discarded); but the decodable instructions preceding the invalid one are
still rewritten in place, so the remaining fields are only guaranteed
unchanged when the invalid instruction is the block's first. -/
theorem C2_theorem (bytecode : List Nat) (start gidx : Nat)
    (heoi : (BasicBlock.parse bytecode start gidx).1.ends_on_invalid = true) :
    (((BasicBlock.parse bytecode start gidx).1.optimize).optimized = true ∧
     ((BasicBlock.parse bytecode start gidx).1.optimize).returns =
       (BasicBlock.parse bytecode start gidx).1.returns) ∧
    (∀ b, ((BasicBlock.parse bytecode start gidx).1.instructions.head?).map
        (fun i => i.opcode) = some (RustResult.Err b) →
      (BasicBlock.parse bytecode start gidx).1.optimize =
        { (BasicBlock.parse bytecode start gidx).1 with optimized := true }) := by
  have herr : ∃ i ∈ (BasicBlock.parse bytecode start gidx).1.instructions,
      ∃ b, i.opcode = RustResult.Err b :=
    parseLoop_eoi_err bytecode start 0 gidx heoi
  refine ⟨⟨(optimize_err _ herr).2, (optimize_err _ herr).1⟩, ?_⟩
  intro b hb
  exact optimize_head_err _ b hb rfl

/-- Explicit form of the parsed block for the single unassigned byte
`0c`: a block consisting of exactly one undecodable instruction. -/
theorem parse_invalid_single : BasicBlock.parse [0x0c] 0 0 =
    ({ address := 0,
       instructions := [
         { address := 0, global_idx := 0, opcode := RustResult.Err 0x0c,
           operands := none, is_constant := false,
           ignoreable := false, value := none }],
       returns := [], stack_sets := [], pops_at_end := 0, optimized := false,
       ends_on_invalid := true }, 1) := by
  simp [BasicBlock.parse, parseLoop, Instruction.from_u8, Instruction.from0]

/-- Witness for claim C2 at the bytecode `0c`. -/
theorem C2_witness :
    (BasicBlock.parse [0x0c] 0 0).1.ends_on_invalid = true ∧
    ((((BasicBlock.parse [0x0c] 0 0).1.optimize).optimized = true ∧
      ((BasicBlock.parse [0x0c] 0 0).1.optimize).returns =
        (BasicBlock.parse [0x0c] 0 0).1.returns) ∧
     (∀ b, ((BasicBlock.parse [0x0c] 0 0).1.instructions.head?).map
         (fun i => i.opcode) = some (RustResult.Err b) →
       (BasicBlock.parse [0x0c] 0 0).1.optimize =
         { (BasicBlock.parse [0x0c] 0 0).1 with optimized := true })) := by
  have heoi : (BasicBlock.parse [0x0c] 0 0).1.ends_on_invalid = true := by
    rw [show (BasicBlock.parse [0x0c] 0 0).1 = _ from
      congrArg Prod.fst parse_invalid_single]
  exact ⟨heoi, C2_theorem [0x0c] 0 0 heoi⟩

theorem land_ff_eq_mod (x : Nat) : Nat.land x 0xff = x % 256 := by
  have h := Nat.and_pow_two_sub_one_eq_mod x 8
  simpa using h

/-- Claim C8: the arity-2 constant folds of the oracle — wrapping
256-bit ADD/MUL/SUB/EXP, EVM division and remainder (divisor zero gives
zero), 0/1 comparisons, bitwise AND/OR/XOR, BYTE (index at least 32
gives zero, otherwise the selected big-endian byte), and SHL/SHR (shift
beyond `usize::MAX` gives zero, otherwise the shifted value). -/
theorem C8_theorem (idx i j a b : Nat) (ha : a < 2 ^ 256) (hb : b < 2 ^ 256) :
    evaluate_opcode Instruction.ADD idx
        [Operand.Constant (i, a), Operand.Constant (j, b)] =
      ([Operand.Constant (idx, (a + b) % 2 ^ 256)], true) ∧
    evaluate_opcode Instruction.MUL idx
        [Operand.Constant (i, a), Operand.Constant (j, b)] =
      ([Operand.Constant (idx, (a * b) % 2 ^ 256)], true) ∧
    evaluate_opcode Instruction.SUB idx
        [Operand.Constant (i, a), Operand.Constant (j, b)] =
      ([Operand.Constant (idx, (a + 2 ^ 256 - b) % 2 ^ 256)], true) ∧
    evaluate_opcode Instruction.DIV idx
        [Operand.Constant (i, a), Operand.Constant (j, b)] =
      ([Operand.Constant (idx, if b = 0 then 0 else a / b)], true) ∧
    evaluate_opcode Instruction.MOD idx
        [Operand.Constant (i, a), Operand.Constant (j, b)] =
      ([Operand.Constant (idx, if b = 0 then 0 else a % b)], true) ∧
    evaluate_opcode Instruction.EXP idx
        [Operand.Constant (i, a), Operand.Constant (j, b)] =
      ([Operand.Constant (idx, a ^ b % 2 ^ 256)], true) ∧
    evaluate_opcode Instruction.LT idx
        [Operand.Constant (i, a), Operand.Constant (j, b)] =
      ([Operand.Constant (idx, if a < b then 1 else 0)], true) ∧
    evaluate_opcode Instruction.GT idx
        [Operand.Constant (i, a), Operand.Constant (j, b)] =
      ([Operand.Constant (idx, if b < a then 1 else 0)], true) ∧
    evaluate_opcode Instruction.EQ idx
        [Operand.Constant (i, a), Operand.Constant (j, b)] =
      ([Operand.Constant (idx, if a = b then 1 else 0)], true) ∧
    evaluate_opcode Instruction.AND idx
        [Operand.Constant (i, a), Operand.Constant (j, b)] =
      ([Operand.Constant (idx, a &&& b)], true) ∧
    evaluate_opcode Instruction.OR idx
        [Operand.Constant (i, a), Operand.Constant (j, b)] =
      ([Operand.Constant (idx, a ||| b)], true) ∧
    evaluate_opcode Instruction.XOR idx
        [Operand.Constant (i, a), Operand.Constant (j, b)] =
      ([Operand.Constant (idx, a ^^^ b)], true) ∧
    evaluate_opcode Instruction.BYTE idx
        [Operand.Constant (i, a), Operand.Constant (j, b)] =
      ([Operand.Constant (idx,
          if a < 32 then b / 2 ^ (8 * (31 - a)) % 256 else 0)], true) ∧
    evaluate_opcode Instruction.SHR idx
        [Operand.Constant (i, a), Operand.Constant (j, b)] =
      ([Operand.Constant (idx,
          if a ≤ 2 ^ 64 - 1 then b / 2 ^ a else 0)], true) ∧
    evaluate_opcode Instruction.SHL idx
        [Operand.Constant (i, a), Operand.Constant (j, b)] =
      ([Operand.Constant (idx,
          if a ≤ 2 ^ 64 - 1 then b * 2 ^ a % 2 ^ 256 else 0)], true) := by
  refine ⟨rfl, rfl, ?_, ?_, ?_, rfl, rfl, rfl, rfl, rfl, rfl, rfl, ?_, ?_, ?_⟩
  · rw [show a + 2 ^ 256 - b = a + (2 ^ 256 - b) from by omega]
    rfl
  · by_cases h : b = 0 <;>
      simp [evaluate_opcode, const_eval, h, Instruction.info]
  · by_cases h : b = 0 <;>
      simp [evaluate_opcode, const_eval, h, Instruction.info]
  · by_cases h : a < 32 <;>
      simp [evaluate_opcode, const_eval, h, Instruction.info,
            land_ff_eq_mod, Nat.shiftRight_eq_div_pow]
  · have e64 : (2 : Nat) ^ 64 - 1 = 18446744073709551615 := by norm_num
    by_cases h : a ≤ 18446744073709551615 <;>
      simp [evaluate_opcode, const_eval, h, Instruction.info, USIZE_MAX, e64,
            Nat.shiftRight_eq_div_pow]
  · have e64 : (2 : Nat) ^ 64 - 1 = 18446744073709551615 := by norm_num
    by_cases h : a ≤ 18446744073709551615 <;>
      simp [evaluate_opcode, const_eval, h, Instruction.info, USIZE_MAX, e64,
            U256LIMIT, Nat.shiftLeft_eq]

/-- Witness for claim C8 at `a = 3`, `b = 2`. -/
theorem C8_witness :
    (3 : Nat) < 2 ^ 256 ∧ (2 : Nat) < 2 ^ 256 ∧
    evaluate_opcode Instruction.ADD 5
        [Operand.Constant (0, 3), Operand.Constant (1, 2)] =
      ([Operand.Constant (5, (3 + 2) % 2 ^ 256)], true) :=
  ⟨by decide, by decide,
   (C8_theorem 5 0 1 3 2 (by norm_num) (by norm_num)).1⟩

/-- Claim C9: the single-constant EXP identities of the oracle, applied
in order — exponent 0 folds to 1, exponent 1 folds to the base operand,
base 0 folds to 0; and with both operands the constant 0 the full fold
also yields 1 (`0 ** 0 = 1`, consistent with the EVM). -/
theorem C9_theorem (idx j : Nat) (x : Operand)
    (hx : ∀ p, x ≠ Operand.Constant p) :
    evaluate_opcode Instruction.EXP idx [x, Operand.Constant (j, 0)] =
      ([Operand.Constant (idx, 1)], true) ∧
    evaluate_opcode Instruction.EXP idx [x, Operand.Constant (j, 1)] =
      ([x], true) ∧
    evaluate_opcode Instruction.EXP idx [Operand.Constant (j, 0), x] =
      ([Operand.Constant (idx, 0)], true) ∧
    evaluate_opcode Instruction.EXP idx
        [Operand.Constant (j, 0), Operand.Constant (j, 0)] =
      ([Operand.Constant (idx, 1)], true) := by
  cases x with
  | Constant p => exact absurd rfl (hx p)
  | StackRef p => exact ⟨rfl, rfl, rfl, rfl⟩
  | StackPop p => exact ⟨rfl, rfl, rfl, rfl⟩
  | InstructionRef p => exact ⟨rfl, rfl, rfl, rfl⟩

/-- Witness for claim C9 at a `StackRef` operand. -/
theorem C9_witness :
    (∀ p, Operand.StackRef (0, 0) ≠ Operand.Constant p) ∧
    evaluate_opcode Instruction.EXP 4
        [Operand.StackRef (0, 0), Operand.Constant (7, 0)] =
      ([Operand.Constant (4, 1)], true) :=
  ⟨fun p => by simp, (C9_theorem 4 7 (Operand.StackRef (0, 0))
    (fun p => by simp)).1⟩

theorem parseLoop_mem (bytecode : List Nat) :
    ∀ pc idx gidx i, i ∈ (parseLoop bytecode pc idx gidx).1 →
    (∃ b, i.opcode = RustResult.Err b) ∨
    (∃ pc2 idx2 gidx2 inst2,
      Instruction.from_u8 (bytecode.getD pc2 0) = some inst2 ∧
      i = parseIInst bytecode pc2 idx2 gidx2 inst2) := by
  intro pc idx gidx
  induction pc, idx, gidx using parseLoop.induct bytecode with
  | case1 pc idx gidx h inst hinst hsb =>
    intro i hi
    unfold parseLoop at hi
    simp only [dif_pos h, hinst, if_pos hsb, List.mem_singleton] at hi
    exact Or.inr ⟨pc, idx, gidx, inst, hinst, hi⟩
  | case2 pc idx gidx h inst hinst hsb ih =>
    intro i hi
    unfold parseLoop at hi
    simp only [dif_pos h, hinst, if_neg hsb, List.mem_cons] at hi
    rcases hi with hi | hi
    · exact Or.inr ⟨pc, _, _, inst, hinst, hi⟩
    · exact ih i hi
  | case3 pc idx gidx h hinst =>
    intro i hi
    unfold parseLoop at hi
    simp only [dif_pos h, hinst, List.mem_singleton] at hi
    subst hi
    exact Or.inl ⟨bytecode.getD pc 0, rfl⟩
  | case4 pc idx gidx h =>
    intro i hi
    unfold parseLoop at hi
    simp only [dif_neg h, List.not_mem_nil] at hi

theorem parseValue_push (bytecode : List Nat) (pc n : Nat) :
    parseValue bytecode pc (Instruction.PUSH n) =
      some [fromBigEndian ((bytecode.drop (pc + 1)).take n)] := by
  unfold parseValue
  rw [if_neg (by simp : ¬(Instruction.PUSH n = Instruction.CODESIZE))]
  simp only [Instruction.pushes_constant, Instruction.push_bytes, if_true]
  split_ifs with h1 h2
  · rfl
  · rw [h2]
    simp [List.drop_length, fromBigEndian]
  · rw [List.take_of_length_le]
    rw [List.length_drop]
    omega

/-- Claim C7: every PUSHn instruction recorded by the partitioner has
`is_constant = true` and `value` equal to the big-endian integer of the
immediate bytes following the opcode, truncated to the bytes that exist
(in particular zero when the PUSH opcode is the final byte of the
code). -/
theorem C7_theorem (bytecode : List Nat) (start gidx : Nat) :
    ∀ inst ∈ (BasicBlock.parse bytecode start gidx).1.instructions, ∀ n,
    inst.opcode = RustResult.Ok (Instruction.PUSH n) →
    inst.is_constant = true ∧
    inst.value =
      some [fromBigEndian ((bytecode.drop (inst.address + 1)).take n)] := by
  intro inst hmem n hop
  rcases parseLoop_mem bytecode start 0 gidx inst hmem with ⟨b, hb⟩ | h2
  · rw [hop] at hb
    simp at hb
  · rcases h2 with ⟨pc2, idx2, gidx2, inst2, hdec, heq⟩
    subst heq
    have ho : inst2 = Instruction.PUSH n := by
      have : RustResult.Ok inst2 = RustResult.Ok (Instruction.PUSH n) := hop
      injection this
    subst ho
    refine ⟨rfl, ?_⟩
    show parseValue bytecode pc2 (Instruction.PUSH n) = _
    rw [parseValue_push]
    rfl

/-- The PUSH1 instruction of the parsed block for `60ff56`, used as the
concrete witness input for claim C7. -/
def pushFFInst : IInstruction :=
  { address := 0, global_idx := 0,
    opcode := RustResult.Ok (Instruction.PUSH 1),
    operands := none, is_constant := true,
    ignoreable := false, value := some [0xff] }

/-- Witness for claim C7: the PUSH1 of the bytecode `60ff56`. -/
theorem C7_witness :
    pushFFInst ∈ (BasicBlock.parse [0x60, 0xff, 0x56] 0 0).1.instructions ∧
    pushFFInst.opcode = RustResult.Ok (Instruction.PUSH 1) ∧
    (pushFFInst.is_constant = true ∧
     pushFFInst.value =
       some [fromBigEndian ((([0x60, 0xff, 0x56] : List Nat).drop
         (pushFFInst.address + 1)).take 1)]) := by
  have hmem : pushFFInst ∈
      (BasicBlock.parse [0x60, 0xff, 0x56] 0 0).1.instructions := by
    rw [show (BasicBlock.parse [0x60, 0xff, 0x56] 0 0).1 = _ from
      congrArg Prod.fst parse_push_jump]
    decide
  exact ⟨hmem, rfl, C7_theorem [0x60, 0xff, 0x56] 0 0 pushFFInst hmem 1 rfl⟩

theorem parseLoop_ne_nil (bytecode : List Nat) (pc idx gidx : Nat)
    (h : pc < bytecode.length) :
    (parseLoop bytecode pc idx gidx).1 ≠ [] := by
  rcases hinst : Instruction.from_u8 (bytecode.getD pc 0) with _ | inst
  · unfold parseLoop
    simp only [dif_pos h, hinst]
    simp
  · by_cases hsb : shouldBreak bytecode pc inst = true
    · unfold parseLoop
      simp only [dif_pos h, hinst, if_pos hsb]
      simp
    · unfold parseLoop
      simp only [dif_pos h, hinst, if_neg hsb]
      simp

theorem programLoop_mem_ne_nil (bytecode : List Nat) :
    ∀ index gidx bb, bb ∈ programLoop bytecode index gidx →
    bb.instructions ≠ [] := by
  intro index gidx
  induction index, gidx using programLoop.induct bytecode with
  | case1 index gidx h r ih =>
    intro bb hbb
    unfold programLoop at hbb
    simp only [dif_pos h, List.mem_cons] at hbb
    rcases hbb with hbb | hbb
    · subst hbb
      exact parseLoop_ne_nil bytecode index 0 gidx h
    · exact ih bb hbb
  | case2 index gidx h =>
    intro bb hbb
    unfold programLoop at hbb
    simp only [dif_neg h, List.not_mem_nil] at hbb

/-- Claim C10: the partitioner makes progress — from any start index
inside the code it returns a strictly larger next offset and a nonempty
block; `Program::new` on the empty byte slice yields no basic blocks,
and no block of any program is empty (so the builder's loop terminates
on every input, as the well-founded definition of `programLoop`
records). -/
theorem C10_theorem :
    (∀ bytecode start gidx, start < bytecode.length →
      start < (BasicBlock.parse bytecode start gidx).2 ∧
      (BasicBlock.parse bytecode start gidx).1.instructions ≠ []) ∧
    (Program.new []).basic_blocks = [] ∧
    (∀ bytecode bb, bb ∈ (Program.new bytecode).basic_blocks →
      bb.instructions ≠ []) := by
  refine ⟨?_, ?_, ?_⟩
  · intro bytecode start gidx h
    exact ⟨parseLoop_pc_lt bytecode start 0 gidx h,
           parseLoop_ne_nil bytecode start 0 gidx h⟩
  · show programLoop [] 0 0 = []
    unfold programLoop
    rw [dif_neg (by simp)]
  · intro bytecode bb hbb
    exact programLoop_mem_ne_nil bytecode 0 0 bb hbb

/-- Witness for claim C10 at the one-byte bytecode `00` (STOP). -/
theorem C10_witness :
    0 < ([0x00] : List Nat).length ∧
    (0 < (BasicBlock.parse [0x00] 0 0).2 ∧
     (BasicBlock.parse [0x00] 0 0).1.instructions ≠ []) :=
  ⟨by decide, C10_theorem.1 [0x00] 0 0 (by decide)⟩

theorem mem_of_mem_getLast? {A : Type} {l : List A} {x : A}
    (hx : x ∈ l.getLast?) : x ∈ l := by
  rcases List.mem_getLast?_eq_getLast hx with ⟨h, rfl⟩
  exact List.getLast_mem h

theorem parseLoop_addr (bytecode : List Nat) :
    ∀ pc idx gidx,
    List.Chain' (· < ·)
      ((parseLoop bytecode pc idx gidx).1.map (fun i => i.address)) ∧
    (∀ a ∈ (parseLoop bytecode pc idx gidx).1.map (fun i => i.address),
      pc ≤ a ∧ a < (parseLoop bytecode pc idx gidx).2.2) := by
  intro pc idx gidx
  induction pc, idx, gidx using parseLoop.induct bytecode with
  | case1 pc idx gidx h inst hinst hsb =>
    unfold parseLoop
    simp only [dif_pos h, hinst, if_pos hsb]
    refine ⟨List.chain'_singleton _, ?_⟩
    intro a ha
    simp only [List.map_cons, List.map_nil, List.mem_singleton] at ha
    subst ha
    omega
  | case2 pc idx gidx h inst hinst hsb ih =>
    have hle := parseLoop_pc_le bytecode (pc + inst.push_bytes.getD 0 + 1)
      (idx + 1) (gidx + 1)
    unfold parseLoop
    simp only [dif_pos h, hinst, if_neg hsb]
    constructor
    · rw [List.map_cons, List.chain'_cons']
      refine ⟨?_, ih.1⟩
      intro y hy
      have hym : y ∈ (parseLoop bytecode (pc + inst.push_bytes.getD 0 + 1)
          (idx + 1) (gidx + 1)).1.map (fun i => i.address) :=
        List.mem_of_mem_head? hy
      have := (ih.2 y hym).1
      show pc < y
      omega
    · intro a ha
      rw [List.map_cons, List.mem_cons] at ha
      rcases ha with ha | ha
      · subst ha
        exact ⟨le_refl a, lt_of_lt_of_le (by omega) hle⟩
      · have := ih.2 a ha
        exact ⟨by omega, this.2⟩
  | case3 pc idx gidx h hinst =>
    unfold parseLoop
    simp only [dif_pos h, hinst]
    refine ⟨List.chain'_singleton _, ?_⟩
    intro a ha
    simp only [List.map_cons, List.map_nil, List.mem_singleton] at ha
    subst ha
    omega
  | case4 pc idx gidx h =>
    unfold parseLoop
    simp only [dif_neg h]
    exact ⟨List.chain'_nil, by intro a ha; simp at ha⟩

theorem parseLoop_head (bytecode : List Nat) (pc idx gidx : Nat)
    (h : pc < bytecode.length) :
    ∃ i, (parseLoop bytecode pc idx gidx).1.head? = some i ∧
      i.address = pc ∧ i.global_idx = gidx := by
  rcases hinst : Instruction.from_u8 (bytecode.getD pc 0) with _ | inst
  · unfold parseLoop
    simp only [dif_pos h, hinst]
    exact ⟨_, rfl, rfl, rfl⟩
  · by_cases hsb : shouldBreak bytecode pc inst = true
    · unfold parseLoop
      simp only [dif_pos h, hinst, if_pos hsb]
      exact ⟨_, rfl, rfl, rfl⟩
    · unfold parseLoop
      simp only [dif_pos h, hinst, if_neg hsb]
      exact ⟨_, rfl, rfl, rfl⟩

theorem parseLoop_gidx (bytecode : List Nat) :
    ∀ pc idx gidx,
    (parseLoop bytecode pc idx gidx).1.map (fun i => i.global_idx) =
      List.range' gidx (parseLoop bytecode pc idx gidx).1.length := by
  intro pc idx gidx
  induction pc, idx, gidx using parseLoop.induct bytecode with
  | case1 pc idx gidx h inst hinst hsb =>
    unfold parseLoop
    simp only [dif_pos h, hinst, if_pos hsb]
    rfl
  | case2 pc idx gidx h inst hinst hsb ih =>
    unfold parseLoop
    simp only [dif_pos h, hinst, if_neg hsb, List.map_cons, List.length_cons]
    rw [ih, List.range'_succ]
    rfl
  | case3 pc idx gidx h hinst =>
    unfold parseLoop
    simp only [dif_pos h, hinst]
    rfl
  | case4 pc idx gidx h =>
    unfold parseLoop
    simp only [dif_neg h]
    rfl

theorem programLoop_addr (bytecode : List Nat) :
    ∀ index gidx,
    List.Chain' (· < ·) (((programLoop bytecode index gidx).map
      (fun bb => bb.instructions.map (fun i => i.address))).flatten) ∧
    (∀ a ∈ ((programLoop bytecode index gidx).map
      (fun bb => bb.instructions.map (fun i => i.address))).flatten,
      index ≤ a) := by
  intro index gidx
  induction index, gidx using programLoop.induct bytecode with
  | case1 index gidx h r ih =>
    have hinsts : (BasicBlock.parse bytecode index gidx).1.instructions =
      (parseLoop bytecode index 0 gidx).1 := rfl
    have hr2 : r.2 = (parseLoop bytecode index 0 gidx).2.2 := rfl
    have hlt := parseLoop_pc_lt bytecode index 0 gidx h
    unfold programLoop
    simp only [dif_pos h, List.map_cons, List.flatten_cons]
    constructor
    · rw [List.chain'_append]
      refine ⟨by rw [hinsts]; exact (parseLoop_addr bytecode index 0 gidx).1,
              ih.1, ?_⟩
      intro x hx y hy
      have hxm := mem_of_mem_getLast? hx
      rw [hinsts] at hxm
      have hxb := ((parseLoop_addr bytecode index 0 gidx).2 x hxm).2
      have hyb := ih.2 y (List.mem_of_mem_head? hy)
      omega
    · intro a ha
      rw [List.mem_append] at ha
      rcases ha with ha | ha
      · rw [hinsts] at ha
        exact ((parseLoop_addr bytecode index 0 gidx).2 a ha).1
      · have := ih.2 a ha
        omega
  | case2 index gidx h =>
    unfold programLoop
    simp only [dif_neg h, List.map_nil, List.flatten_nil]
    exact ⟨List.chain'_nil, by intro a ha; simp at ha⟩

theorem programLoop_gidx (bytecode : List Nat) :
    ∀ index gidx,
    ((programLoop bytecode index gidx).map
      (fun bb => bb.instructions.map (fun i => i.global_idx))).flatten =
    List.range' gidx (((programLoop bytecode index gidx).map
      (fun bb => bb.instructions.length)).sum) := by
  intro index gidx
  induction index, gidx using programLoop.induct bytecode with
  | case1 index gidx h r ih =>
    have ih2 : ((programLoop bytecode (BasicBlock.parse bytecode index gidx).2
        (gidx + (BasicBlock.parse bytecode index gidx).1.instructions.length)).map
        (fun bb => bb.instructions.map (fun i => i.global_idx))).flatten =
      List.range'
        (gidx + (BasicBlock.parse bytecode index gidx).1.instructions.length)
        (((programLoop bytecode (BasicBlock.parse bytecode index gidx).2
          (gidx + (BasicBlock.parse bytecode index gidx).1.instructions.length)).map
          (fun bb => bb.instructions.length)).sum) := ih
    have hblock : (BasicBlock.parse bytecode index gidx).1.instructions.map
        (fun i => i.global_idx) =
      List.range' gidx
        (BasicBlock.parse bytecode index gidx).1.instructions.length :=
      parseLoop_gidx bytecode index 0 gidx
    unfold programLoop
    simp only [dif_pos h, List.map_cons, List.flatten_cons, List.sum_cons]
    rw [hblock, ih2]
    have hap := List.range'_append gidx
      (BasicBlock.parse bytecode index gidx).1.instructions.length
      (((programLoop bytecode (BasicBlock.parse bytecode index gidx).2
        (gidx + (BasicBlock.parse bytecode index gidx).1.instructions.length)).map
        (fun bb => bb.instructions.length)).sum) 1
    simp only [one_mul] at hap
    rw [hap, Nat.add_comm]
  | case2 index gidx h =>
    unfold programLoop
    simp only [dif_neg h, List.map_nil, List.flatten_nil, List.sum_nil]
    rfl

theorem programLoop_head (bytecode : List Nat) :
    ∀ index gidx bb, bb ∈ programLoop bytecode index gidx →
    ∃ i, bb.instructions.head? = some i ∧ i.address = bb.address := by
  intro index gidx
  induction index, gidx using programLoop.induct bytecode with
  | case1 index gidx h r ih =>
    intro bb hbb
    unfold programLoop at hbb
    simp only [dif_pos h, List.mem_cons] at hbb
    rcases hbb with hbb | hbb
    · subst hbb
      rcases parseLoop_head bytecode index 0 gidx h with ⟨i, hh, hA, _⟩
      exact ⟨i, hh, hA⟩
    · exact ih bb hbb
  | case2 index gidx h =>
    intro bb hbb
    unfold programLoop at hbb
    simp only [dif_neg h, List.not_mem_nil] at hbb

/-- Claim C6: the basic blocks of `Program::new` tile the bytecode —
each block's `address` is its first instruction's address, the
concatenated instruction addresses are strictly increasing, and the
concatenated `global_idx` values are exactly `0, 1, 2, …` (one per
appended instruction, so each block continues the contiguous range where
the previous block ended). -/
theorem C6_theorem (bytecode : List Nat) :
    (∀ bb ∈ (Program.new bytecode).basic_blocks,
      ∃ i, bb.instructions.head? = some i ∧ i.address = bb.address) ∧
    List.Chain' (· < ·) (((Program.new bytecode).basic_blocks.map
      (fun bb => bb.instructions.map (fun i => i.address))).flatten) ∧
    ((Program.new bytecode).basic_blocks.map
      (fun bb => bb.instructions.map (fun i => i.global_idx))).flatten =
      List.range (((Program.new bytecode).basic_blocks.map
        (fun bb => bb.instructions.length)).sum) := by
  refine ⟨?_, ?_, ?_⟩
  · intro bb hbb
    exact programLoop_head bytecode 0 0 bb hbb
  · exact (programLoop_addr bytecode 0 0).1
  · rw [List.range_eq_range']
    exact programLoop_gidx bytecode 0 0

/-- Explicit form of the parsed block for the bytecode `00` (STOP). -/
theorem parse_stop : BasicBlock.parse [0x00] 0 0 =
    ({ address := 0,
       instructions := [
         { address := 0, global_idx := 0,
           opcode := RustResult.Ok Instruction.STOP,
           operands := none, is_constant := false,
           ignoreable := false, value := none }],
       returns := [], stack_sets := [], pops_at_end := 0, optimized := false,
       ends_on_invalid := false }, 1) := by
  simp [BasicBlock.parse, parseLoop, shouldBreak, nextIsJumpdest, parseIInst,
        parseValue, parseOperands, Instruction.from_u8, Instruction.from0, Instruction.from1,
        Instruction.from2, Instruction.from3, Instruction.from4,
        Instruction.from5, Instruction.fromF, Instruction.stops,
        Instruction.is_jump, Instruction.push_bytes, Instruction.pushes_constant,
        Instruction.dup_position, Instruction.swap_position, Instruction.info,
        fromBigEndian, List.range]

/-- The program built from the bytecode `00` has a single basic block. -/
theorem programNew_single : (Program.new [0x00]).basic_blocks =
    [(BasicBlock.parse [0x00] 0 0).1] := by
  show programLoop [0x00] 0 0 = _
  unfold programLoop
  rw [dif_pos (by decide)]
  dsimp only []
  rw [show (BasicBlock.parse [0x00] 0 0).2 = 1 from
    congrArg Prod.snd parse_stop]
  unfold programLoop
  rw [dif_neg (by decide)]

/-- Witness for claim C6 at the bytecode `00` (STOP). -/
theorem C6_witness :
    (BasicBlock.parse [0x00] 0 0).1 ∈ (Program.new [0x00]).basic_blocks ∧
    (∃ i, (BasicBlock.parse [0x00] 0 0).1.instructions.head? = some i ∧
      i.address = (BasicBlock.parse [0x00] 0 0).1.address) := by
  have hmem : (BasicBlock.parse [0x00] 0 0).1 ∈
      (Program.new [0x00]).basic_blocks := by
    rw [programNew_single]
    exact List.mem_singleton_self _
  exact ⟨hmem, (C6_theorem [0x00]).1 _ hmem⟩

set_option maxRecDepth 8000 in
theorem from_u8_jd_bounded :
    ∀ b < 0x100, Instruction.from_u8 b = some Instruction.JUMPDEST →
      b = 0x5b := by
  decide

theorem from_u8_ge_none (b : Nat) (h : 0x100 ≤ b) :
    Instruction.from_u8 b = none := by
  unfold Instruction.from_u8
  repeat rw [if_neg (by omega)]

/-- Only the byte 0x5B decodes to JUMPDEST. -/
theorem from_u8_jumpdest (b : Nat)
    (h : Instruction.from_u8 b = some Instruction.JUMPDEST) : b = 0x5b := by
  by_cases hb : b < 0x100
  · exact from_u8_jd_bounded b hb h
  · rw [from_u8_ge_none b (by omega)] at h
    exact Option.noConfusion h


theorem setFalseRange_length :
    ∀ l lb up, (setFalseRange l lb up).length = l.length := by
  intro l lb up
  induction l, lb, up using setFalseRange.induct with
  | case1 l lb up h ih =>
    unfold setFalseRange
    rw [if_pos h, ih, List.length_set]
  | case2 l lb up h =>
    unfold setFalseRange
    rw [if_neg h]

theorem setFalseRange_getD_out :
    ∀ l lb up k, (k < lb ∨ up ≤ k) →
    (setFalseRange l lb up).getD k false = l.getD k false := by
  intro l lb up
  induction l, lb, up using setFalseRange.induct with
  | case1 l lb up h ih =>
    intro k hk
    unfold setFalseRange
    rw [if_pos h, ih k (by omega)]
    rw [List.getD_eq_getElem?_getD, List.getElem?_set_ne (by omega),
        ← List.getD_eq_getElem?_getD]
  | case2 l lb up h =>
    intro k hk
    unfold setFalseRange
    rw [if_neg h]

theorem setFalseRange_getD_in :
    ∀ l lb up k, lb ≤ k → k < up → k < l.length →
    (setFalseRange l lb up).getD k false = false := by
  intro l lb up
  induction l, lb, up using setFalseRange.induct with
  | case1 l lb up h ih =>
    intro k h1 h2 h3
    by_cases hk : k = lb
    · subst hk
      unfold setFalseRange
      rw [if_pos h]
      rw [setFalseRange_getD_out _ _ _ _ (Or.inl (by omega))]
      rw [List.getD_eq_getElem?_getD, List.getElem?_set_self (by omega)]
      rfl
    · unfold setFalseRange
      rw [if_pos h]
      exact ih k (by omega) h2 (by rw [List.length_set]; exact h3)
  | case2 l lb up h =>
    intro k h1 h2 h3
    omega

theorem instructionBoundaries_cons (code : List Nat) (i : Nat)
    (h : i < code.length) :
    instructionBoundaries code i =
      i :: instructionBoundaries code (i + scanStep code i) := by
  conv_lhs => unfold instructionBoundaries
  rw [dif_pos h]

theorem instructionBoundaries_nil (code : List Nat) (i : Nat)
    (h : ¬i < code.length) :
    instructionBoundaries code i = [] := by
  unfold instructionBoundaries
  rw [dif_neg h]

theorem scanStep_of_decode (code : List Nat) (i : Nat) (inst : Instruction)
    (hinst : Instruction.from_u8 (code.getD i 0) = some inst) :
    scanStep code i = inst.push_bytes.getD 0 + 1 := by
  unfold scanStep
  rw [hinst]

theorem scanStep_of_none (code : List Nat) (i : Nat)
    (hinst : Instruction.from_u8 (code.getD i 0) = none) :
    scanStep code i = 1 := by
  unfold scanStep
  rw [hinst]

theorem instructionBoundaries_mem (code : List Nat) :
    ∀ i j, j ∈ instructionBoundaries code i → i ≤ j ∧ j < code.length := by
  intro i
  induction i using instructionBoundaries.induct code with
  | case1 i h ih =>
    intro j hj
    rw [instructionBoundaries_cons code i h, List.mem_cons] at hj
    rcases hj with hj | hj
    · subst hj
      exact ⟨le_refl j, h⟩
    · have h1 := ih j hj
      have h2 := scanStep_pos code i
      exact ⟨by omega, h1.2⟩
  | case2 i h =>
    intro j hj
    rw [instructionBoundaries_nil code i h] at hj
    simp at hj

theorem instructionBoundaries_succ (code : List Nat) :
    ∀ i j, j ∈ instructionBoundaries code i →
    ∀ k ∈ instructionBoundaries code i,
      k ≤ j ∨ j + scanStep code j ≤ k := by
  intro i
  induction i using instructionBoundaries.induct code with
  | case1 i h ih =>
    intro j hj k hk
    rw [instructionBoundaries_cons code i h, List.mem_cons] at hj hk
    rcases hj with hj | hj
    · subst hj
      rcases hk with hk | hk
      · exact Or.inl (le_of_eq hk)
      · exact Or.inr (instructionBoundaries_mem code _ k hk).1
    · rcases hk with hk | hk
      · subst hk
        have := (instructionBoundaries_mem code _ j hj).1
        have := scanStep_pos code k
        exact Or.inl (by omega)
      · exact ih j hj k hk
  | case2 i h =>
    intro j hj
    rw [instructionBoundaries_nil code i h] at hj
    simp at hj

/-- A scan boundary never lies strictly inside the immediate of a PUSH
found at another scan boundary. -/
theorem boundary_not_in_immediate (code : List Nat) (j k n : Nat)
    (hj : j ∈ instructionBoundaries code 0)
    (hk : k ∈ instructionBoundaries code 0)
    (hpush : ∃ inst, Instruction.from_u8 (code.getD j 0) = some inst ∧
      inst.push_bytes = some n)
    (h1 : j < k) (h2 : k < j + 1 + n) : False := by
  rcases hpush with ⟨inst, hdec, hpb⟩
  have hstep : scanStep code j = n + 1 := by
    rw [scanStep_of_decode code j inst hdec, hpb]
    rfl
  rcases instructionBoundaries_succ code 0 j hj k hk with hc | hc
  · omega
  · rw [hstep] at hc
    omega

theorem codeMetaLoop_length (code : List Nat) :
    ∀ i jd ic, (codeMetaLoop code i jd ic).1.length = jd.length ∧
      (codeMetaLoop code i jd ic).2.length = ic.length := by
  intro i jd ic
  induction i, jd, ic using codeMetaLoop.induct code with
  | case1 i jd ic h hjd ih =>
    unfold codeMetaLoop
    simp only [dif_pos h, hjd, if_true]
    exact ⟨by rw [ih.1, List.length_set], ih.2⟩
  | case2 i jd ic h inst hinst hne v hpb lb up ih =>
    unfold codeMetaLoop
    simp only [dif_pos h, hinst, if_neg hne, hpb]
    exact ⟨ih.1, by rw [ih.2, setFalseRange_length]⟩
  | case3 i jd ic h inst hinst hne hpb ih =>
    unfold codeMetaLoop
    simp only [dif_pos h, hinst, if_neg hne, hpb]
    exact ih
  | case4 i jd ic h hinst ih =>
    unfold codeMetaLoop
    simp only [dif_pos h, hinst]
    exact ih
  | case5 i jd ic h =>
    unfold codeMetaLoop
    rw [dif_neg h]
    exact ⟨rfl, rfl⟩

theorem getD_true_lt_length {l : List Bool} {k : Nat}
    (h : l.getD k false = true) : k < l.length := by
  by_contra hge
  rw [List.getD_eq_getElem?_getD, List.getElem?_eq_none (by omega)] at h
  simp at h

theorem codeMetaLoop_jd (code : List Nat) :
    ∀ i jd ic k, jd.length = code.length →
    ((codeMetaLoop code i jd ic).1.getD k false = true ↔
      (jd.getD k false = true ∨
       (k ∈ instructionBoundaries code i ∧
        Instruction.from_u8 (code.getD k 0) = some Instruction.JUMPDEST))) := by
  intro i jd ic
  induction i, jd, ic using codeMetaLoop.induct code with
  | case1 i jd ic h hjd ih =>
    intro k hlen
    unfold codeMetaLoop
    simp only [dif_pos h, hjd, if_true]
    rw [ih k (by rw [List.length_set]; exact hlen)]
    rw [instructionBoundaries_cons code i h, scanStep_of_decode code i _ hjd,
        show Instruction.JUMPDEST.push_bytes.getD 0 + 1 = 1 from rfl]
    constructor
    · rintro (hs | hbd)
      · by_cases hk : k = i
        · subst hk
          exact Or.inr ⟨List.mem_cons_self _ _, hjd⟩
        · left
          rwa [List.getD_eq_getElem?_getD,
               List.getElem?_set_ne (fun he => hk he.symm),
               ← List.getD_eq_getElem?_getD] at hs
      · exact Or.inr ⟨List.mem_cons_of_mem _ hbd.1, hbd.2⟩
    · rintro (hs | ⟨hmem, hJ⟩)
      · by_cases hk : k = i
        · subst hk
          left
          have hklen := getD_true_lt_length hs
          rw [List.getD_eq_getElem?_getD, List.getElem?_set_self (by omega)]
          rfl
        · left
          rwa [List.getD_eq_getElem?_getD,
               List.getElem?_set_ne (fun he => hk he.symm),
               ← List.getD_eq_getElem?_getD]
      · rcases List.mem_cons.mp hmem with hk | hk
        · subst hk
          left
          rw [List.getD_eq_getElem?_getD,
              List.getElem?_set_self (by omega)]
          rfl
        · exact Or.inr ⟨hk, hJ⟩
  | case2 i jd ic h inst hinst hne v hpb lb up ih =>
    intro k hlen
    have hstep : i + scanStep code i = i + v + 1 := by
      rw [scanStep_of_decode code i inst hinst, hpb]
      rfl
    unfold codeMetaLoop
    simp only [dif_pos h, hinst, if_neg hne, hpb]
    rw [ih k hlen]
    rw [instructionBoundaries_cons code i h, hstep]
    constructor
    · rintro (hs | ⟨hm, hJ⟩)
      · exact Or.inl hs
      · exact Or.inr ⟨List.mem_cons_of_mem _ hm, hJ⟩
    · rintro (hs | ⟨hm, hJ⟩)
      · exact Or.inl hs
      · rcases List.mem_cons.mp hm with hk | hk
        · subst hk
          exact absurd (Option.some.inj (hinst.symm.trans hJ)) hne
        · exact Or.inr ⟨hk, hJ⟩
  | case3 i jd ic h inst hinst hne hpb ih =>
    intro k hlen
    have hstep : i + scanStep code i = i + 1 := by
      rw [scanStep_of_decode code i inst hinst, hpb]
      rfl
    unfold codeMetaLoop
    simp only [dif_pos h, hinst, if_neg hne, hpb]
    rw [ih k hlen]
    rw [instructionBoundaries_cons code i h, hstep]
    constructor
    · rintro (hs | ⟨hm, hJ⟩)
      · exact Or.inl hs
      · exact Or.inr ⟨List.mem_cons_of_mem _ hm, hJ⟩
    · rintro (hs | ⟨hm, hJ⟩)
      · exact Or.inl hs
      · rcases List.mem_cons.mp hm with hk | hk
        · subst hk
          exact absurd (Option.some.inj (hinst.symm.trans hJ)) hne
        · exact Or.inr ⟨hk, hJ⟩
  | case4 i jd ic h hinst ih =>
    intro k hlen
    have hstep : i + scanStep code i = i + 1 := by
      rw [scanStep_of_none code i hinst]
    unfold codeMetaLoop
    simp only [dif_pos h, hinst]
    rw [ih k hlen]
    rw [instructionBoundaries_cons code i h, hstep]
    constructor
    · rintro (hs | ⟨hm, hJ⟩)
      · exact Or.inl hs
      · exact Or.inr ⟨List.mem_cons_of_mem _ hm, hJ⟩
    · rintro (hs | ⟨hm, hJ⟩)
      · exact Or.inl hs
      · rcases List.mem_cons.mp hm with hk | hk
        · subst hk
          rw [hinst] at hJ
          exact Option.noConfusion hJ
        · exact Or.inr ⟨hk, hJ⟩
  | case5 i jd ic h =>
    intro k hlen
    unfold codeMetaLoop
    rw [dif_neg h, instructionBoundaries_nil code i h]
    simp

theorem codeMetaLoop_ic (code : List Nat) :
    ∀ i jd ic k, ic.length = code.length →
    ((codeMetaLoop code i jd ic).2.getD k false = false ↔
      (ic.getD k false = false ∨
       ∃ j n, j ∈ instructionBoundaries code i ∧
         (∃ inst, Instruction.from_u8 (code.getD j 0) = some inst ∧
           inst.push_bytes = some n) ∧
         j < k ∧ k < j + 1 + n ∧ k < code.length)) := by
  intro i jd ic
  induction i, jd, ic using codeMetaLoop.induct code with
  | case1 i jd ic h hjd ih =>
    intro k hlen
    have hstep : i + scanStep code i = i + 1 := by
      rw [scanStep_of_decode code i _ hjd]
      rfl
    unfold codeMetaLoop
    simp only [dif_pos h, hjd, if_true]
    rw [ih k hlen]
    rw [instructionBoundaries_cons code i h, hstep]
    constructor
    · rintro (hs | ⟨j, n, hm, hp, hjk⟩)
      · exact Or.inl hs
      · exact Or.inr ⟨j, n, List.mem_cons_of_mem _ hm, hp, hjk⟩
    · rintro (hs | ⟨j, n, hm, ⟨inst2, hd2, hp2⟩, hjk⟩)
      · exact Or.inl hs
      · rcases List.mem_cons.mp hm with hji | hji
        · subst hji
          rw [hjd] at hd2
          have : Instruction.JUMPDEST = inst2 := Option.some.inj hd2
          rw [← this] at hp2
          exact Option.noConfusion hp2
        · exact Or.inr ⟨j, n, hji, ⟨inst2, hd2, hp2⟩, hjk⟩
  | case2 i jd ic h inst hinst hne v hpb lb up ih =>
    intro k hlen
    have hstep : i + scanStep code i = i + v + 1 := by
      rw [scanStep_of_decode code i inst hinst, hpb]
      rfl
    have hchar : (setFalseRange ic ((i + 1) ⊓ code.length)
        ((i + 1 + v) ⊓ code.length)).getD k false = false ↔
        (((i + 1) ⊓ code.length ≤ k ∧ k < (i + 1 + v) ⊓ code.length) ∨
         ic.getD k false = false) := by
      constructor
      · intro hf
        by_cases hin : (i + 1) ⊓ code.length ≤ k ∧ k < (i + 1 + v) ⊓ code.length
        · exact Or.inl hin
        · right
          rwa [setFalseRange_getD_out ic _ _ k (by omega)] at hf
      · intro hc
        by_cases hin : (i + 1) ⊓ code.length ≤ k ∧ k < (i + 1 + v) ⊓ code.length
        · exact setFalseRange_getD_in ic _ _ k hin.1 hin.2 (by omega)
        · rcases hc with hc | hc
          · exact absurd hc hin
          · rwa [setFalseRange_getD_out ic _ _ k (by omega)]
    unfold codeMetaLoop
    simp only [dif_pos h, hinst, if_neg hne, hpb]
    rw [ih k (by rw [setFalseRange_length]; exact hlen), hchar]
    rw [instructionBoundaries_cons code i h, hstep]
    constructor
    · rintro ((hrange | hicf) | ⟨j, n, hm, hp, hjk⟩)
      · refine Or.inr ⟨i, v, List.mem_cons_self _ _, ⟨inst, hinst, hpb⟩,
          ?_, ?_, ?_⟩ <;> omega
      · exact Or.inl hicf
      · exact Or.inr ⟨j, n, List.mem_cons_of_mem _ hm, hp, hjk⟩
    · rintro (hicf | ⟨j, n, hm, ⟨inst2, hd2, hp2⟩, hjk1, hjk2, hjk3⟩)
      · exact Or.inl (Or.inr hicf)
      · rcases List.mem_cons.mp hm with hji | hji
        · subst hji
          rw [hinst] at hd2
          have he : inst = inst2 := Option.some.inj hd2
          rw [← he] at hp2
          rw [hpb] at hp2
          have hv : v = n := Option.some.inj hp2
          subst hv
          exact Or.inl (Or.inl (by omega))
        · exact Or.inr ⟨j, n, hji, ⟨inst2, hd2, hp2⟩, hjk1, hjk2, hjk3⟩
  | case3 i jd ic h inst hinst hne hpb ih =>
    intro k hlen
    have hstep : i + scanStep code i = i + 1 := by
      rw [scanStep_of_decode code i inst hinst, hpb]
      rfl
    unfold codeMetaLoop
    simp only [dif_pos h, hinst, if_neg hne, hpb]
    rw [ih k hlen]
    rw [instructionBoundaries_cons code i h, hstep]
    constructor
    · rintro (hs | ⟨j, n, hm, hp, hjk⟩)
      · exact Or.inl hs
      · exact Or.inr ⟨j, n, List.mem_cons_of_mem _ hm, hp, hjk⟩
    · rintro (hs | ⟨j, n, hm, ⟨inst2, hd2, hp2⟩, hjk⟩)
      · exact Or.inl hs
      · rcases List.mem_cons.mp hm with hji | hji
        · subst hji
          rw [hinst] at hd2
          have he : inst = inst2 := Option.some.inj hd2
          rw [← he] at hp2
          rw [hpb] at hp2
          exact Option.noConfusion hp2
        · exact Or.inr ⟨j, n, hji, ⟨inst2, hd2, hp2⟩, hjk⟩
  | case4 i jd ic h hinst ih =>
    intro k hlen
    have hstep : i + scanStep code i = i + 1 := by
      rw [scanStep_of_none code i hinst]
    unfold codeMetaLoop
    simp only [dif_pos h, hinst]
    rw [ih k hlen]
    rw [instructionBoundaries_cons code i h, hstep]
    constructor
    · rintro (hs | ⟨j, n, hm, hp, hjk⟩)
      · exact Or.inl hs
      · exact Or.inr ⟨j, n, List.mem_cons_of_mem _ hm, hp, hjk⟩
    · rintro (hs | ⟨j, n, hm, ⟨inst2, hd2, hp2⟩, hjk⟩)
      · exact Or.inl hs
      · rcases List.mem_cons.mp hm with hji | hji
        · subst hji
          rw [hinst] at hd2
          exact Option.noConfusion hd2
        · exact Or.inr ⟨j, n, hji, ⟨inst2, hd2, hp2⟩, hjk⟩
  | case5 i jd ic h =>
    intro k hlen
    unfold codeMetaLoop
    rw [dif_neg h, instructionBoundaries_nil code i h]
    simp

theorem codeMeta_jd (code : List Nat) (k : Nat) :
    ((CodeMeta.new code).jumpdests.getD k false = true ↔
      (k ∈ instructionBoundaries code 0 ∧
       Instruction.from_u8 (code.getD k 0) = some Instruction.JUMPDEST)) := by
  unfold CodeMeta.new
  dsimp only []
  rw [codeMetaLoop_jd code 0 _ _ k (by rw [List.length_replicate])]
  rw [show (List.replicate code.length false).getD k false = false from by
    rw [List.getD_eq_getElem?_getD, List.getElem?_replicate]
    split <;> rfl]
  simp

theorem codeMeta_ic (code : List Nat) (k : Nat) :
    ((CodeMeta.new code).iscode.getD k false = false ↔
      (code.length ≤ k ∨
       ∃ j n, j ∈ instructionBoundaries code 0 ∧
         (∃ inst, Instruction.from_u8 (code.getD j 0) = some inst ∧
           inst.push_bytes = some n) ∧
         j < k ∧ k < j + 1 + n ∧ k < code.length)) := by
  unfold CodeMeta.new
  dsimp only []
  rw [codeMetaLoop_ic code 0 _ _ k (by rw [List.length_replicate])]
  rw [show ((List.replicate code.length true).getD k false = false) =
      (code.length ≤ k) from by
    rw [List.getD_eq_getElem?_getD, List.getElem?_replicate]
    split
    · simp
      omega
    · simp
      omega]

/-- Claim C3: soundness of `CodeMeta::new` — every index flagged
`is_jumpdest` holds the byte 0x5B, is flagged `is_instruction`, and is
visited as an instruction boundary by the left-to-right scan; every
in-range index whose `is_instruction` flag is false lies strictly inside
the immediate of a PUSH found at a scan boundary; and no byte inside
such a PUSH immediate is ever flagged `is_jumpdest`, even if its value
is 0x5B. -/
theorem C3_theorem (code : List Nat) :
    (∀ k, (CodeMeta.new code).jumpdests.getD k false = true →
      code.getD k 0 = 0x5b ∧
      (CodeMeta.new code).iscode.getD k false = true ∧
      k ∈ instructionBoundaries code 0) ∧
    (∀ k, k < code.length →
      (CodeMeta.new code).iscode.getD k false = false →
      ∃ j n, j ∈ instructionBoundaries code 0 ∧
        (∃ inst, Instruction.from_u8 (code.getD j 0) = some inst ∧
          inst.push_bytes = some n) ∧
        j < k ∧ k < j + 1 + n) ∧
    (∀ j n k, j ∈ instructionBoundaries code 0 →
      (∃ inst, Instruction.from_u8 (code.getD j 0) = some inst ∧
        inst.push_bytes = some n) →
      j < k → k < j + 1 + n →
      (CodeMeta.new code).jumpdests.getD k false = false) := by
  refine ⟨?_, ?_, ?_⟩
  · intro k hk
    rcases (codeMeta_jd code k).mp hk with ⟨hmem, hdec⟩
    refine ⟨from_u8_jumpdest _ hdec, ?_, hmem⟩
    cases hb : (CodeMeta.new code).iscode.getD k false with
    | true => rfl
    | false =>
      exfalso
      rcases (codeMeta_ic code k).mp hb with hge | ⟨j, n, hj, hp, h1, h2, h3⟩
      · have := (instructionBoundaries_mem code 0 k hmem).2
        omega
      · exact boundary_not_in_immediate code j k n hj hmem hp h1 h2
  · intro k hklen hic
    rcases (codeMeta_ic code k).mp hic with hge | ⟨j, n, hj, hp, h1, h2, _⟩
    · omega
    · exact ⟨j, n, hj, hp, h1, h2⟩
  · intro j n k hj hp h1 h2
    cases hb : (CodeMeta.new code).jumpdests.getD k false with
    | false => rfl
    | true =>
      exfalso
      rcases (codeMeta_jd code k).mp hb with ⟨hmem, _⟩
      exact boundary_not_in_immediate code j k n hj hmem hp h1 h2

/-- Concrete scanner run for the bytecode `5b605b`
(JUMPDEST; PUSH1 0x5b): the immediate byte 0x5B is data, not a
jump destination. -/
theorem codeMeta_concrete : CodeMeta.new [0x5b, 0x60, 0x5b] =
    { jumpdests := [true, false, false], iscode := [true, true, false] } := by
  simp [CodeMeta.new, codeMetaLoop, setFalseRange, Instruction.from_u8,
        Instruction.from0, Instruction.from1, Instruction.from2,
        Instruction.from3, Instruction.from4, Instruction.from5,
        Instruction.fromF, Instruction.push_bytes, List.replicate]

/-- Concrete boundary scan for the bytecode `5b605b`. -/
theorem boundaries_concrete :
    instructionBoundaries [0x5b, 0x60, 0x5b] 0 = [0, 1] := by
  simp [instructionBoundaries, scanStep, Instruction.from_u8,
        Instruction.from0, Instruction.from1, Instruction.from2,
        Instruction.from3, Instruction.from4, Instruction.from5,
        Instruction.fromF, Instruction.push_bytes]

/-- Witness for claim C3 at the bytecode `5b605b`. -/
theorem C3_witness :
    (CodeMeta.new [0x5b, 0x60, 0x5b]).jumpdests.getD 0 false = true ∧
    (([0x5b, 0x60, 0x5b] : List Nat).getD 0 0 = 0x5b ∧
     (CodeMeta.new [0x5b, 0x60, 0x5b]).iscode.getD 0 false = true ∧
     0 ∈ instructionBoundaries [0x5b, 0x60, 0x5b] 0) := by
  have h0 : (CodeMeta.new [0x5b, 0x60, 0x5b]).jumpdests.getD 0 false = true := by
    rw [codeMeta_concrete]
    rfl
  exact ⟨h0, (C3_theorem [0x5b, 0x60, 0x5b]).1 0 h0⟩

/-- Discriminator for the `opcode` field, mirroring `Result::is_ok`. -/
def RustResult.is_ok {T E : Type} : RustResult T E → Bool
  | RustResult.Ok _ => true
  | RustResult.Err _ => false

/-- The net stack delta of a list of instructions per the instruction
table: results produced minus arguments consumed, summed over the
decodable opcodes.  This is the claim-side reference quantity of the
net-effect conservation property. -/
def naiveStackDelta : List IInstruction → Int
  | [] => 0
  | inst :: rest =>
    (match inst.opcode with
     | RustResult.Ok e => (e.info.ret : Int) - e.info.args
     | RustResult.Err _ => 0) + naiveStackDelta rest

theorem const_eval_ret (e : Instruction) (idx : Nat) (args : List Operand)
    (r : Operand) (h : const_eval e idx args = some r) : e.info.ret = 1 := by
  unfold const_eval at h
  repeat' split at h
  all_goals
    first
      | rfl
      | exact Option.noConfusion h
      | (subst_vars; rfl)
      | (rcases ‹e = Instruction.SHR ∨ e = Instruction.SHL› with hh | hh <;>
           subst hh <;> rfl)

theorem evaluate_opcode_length (e : Instruction) (idx : Nat)
    (args : List Operand) :
    (evaluate_opcode e idx args).1.length = e.info.ret := by
  unfold evaluate_opcode
  cases hce : const_eval e idx args with
  | none =>
    dsimp only []
    split_ifs with hr <;> simp at hr ⊢ <;> omega
  | some r =>
    have h1 := const_eval_ret e idx args r hce
    dsimp only []
    rw [h1]
    simp

theorem pushes_constant_info (e : Instruction)
    (h : e.pushes_constant = true) : e.info = ⟨0, 1⟩ := by
  cases e <;> first | rfl | simp [Instruction.pushes_constant] at h

theorem dup_position_info (e : Instruction) (p : Nat)
    (h : e.dup_position = some p) : e.info.ret = e.info.args + 1 := by
  cases e <;> first | rfl | exact Option.noConfusion h

theorem swap_position_info (e : Instruction) (p : Nat)
    (h : e.swap_position = some p) : e.info.ret = e.info.args := by
  cases e <;> first | rfl | exact Option.noConfusion h

theorem listSwap_length (l : List Operand) (pos : Nat) :
    (listSwap l pos).length = l.length := by
  simp [listSwap]

theorem collectArgs_spec (L cp cl : Nat) :
    ∀ count args_idx stack pops,
    (collectArgs L cp cl args_idx count stack pops).1.length = count ∧
    (((collectArgs L cp cl args_idx count stack pops).2.1.length : Int) -
      (collectArgs L cp cl args_idx count stack pops).2.2 =
      (stack.length : Int) - pops - count) := by
  intro count
  induction count with
  | zero =>
    intro args_idx stack pops
    exact ⟨rfl, by simp [collectArgs]⟩
  | succ c ih =>
    intro args_idx stack pops
    cases stack with
    | cons v st =>
      refine ⟨?_, ?_⟩
      · simp [collectArgs, (ih (args_idx + 1) st pops).1]
      · have h2 := (ih (args_idx + 1) st pops).2
        simp only [collectArgs, List.length_cons]
        push_cast at h2 ⊢
        omega
    | nil =>
      refine ⟨?_, ?_⟩
      · simp [collectArgs, (ih (args_idx + 1) [] (pops + 1)).1]
      · have h2 := (ih (args_idx + 1) [] (pops + 1)).2
        simp only [collectArgs, List.length_nil] at h2 ⊢
        push_cast at h2 ⊢
        omega

theorem foldl_cons_length {A : Type} :
    ∀ (l : List A) (init : List A),
    (l.foldl (fun s v => v :: s) init).length = l.length + init.length := by
  intro l
  induction l with
  | nil => intro init; simp
  | cons x xs ih =>
    intro init
    rw [List.foldl_cons, ih]
    simp
    omega

theorem emuStep_delta (L idx : Nat) (inst : IInstruction) (e : Instruction)
    (stack : List Operand) (pops : Nat) :
    ((emuStep L idx inst e stack pops).2.1.length : Int) -
      (emuStep L idx inst e stack pops).2.2 =
      (stack.length : Int) - pops + e.info.ret - e.info.args := by
  unfold emuStep
  by_cases hpc : e.pushes_constant = true
  · rw [if_pos hpc, pushes_constant_info e hpc]
    simp
    omega
  · rw [if_neg hpc]
    cases hdp : e.dup_position with
    | some pos =>
      have hi := dup_position_info e pos hdp
      dsimp only []
      by_cases hlt : pos < stack.length
      · rw [if_pos hlt]
        cases stack.getD pos (Operand.StackRef (0, 0)) <;> simp <;> omega
      · rw [if_neg hlt]
        simp
        omega
    | none =>
      cases hsp : e.swap_position with
      | some pos =>
        have hi := swap_position_info e pos hsp
        dsimp only []
        by_cases h0 : stack.length = 0
        · rw [if_pos h0]
          simp
          omega
        · rw [if_neg h0]
          by_cases hge : pos ≥ stack.length
          · rw [if_pos hge]
            cases stack with
            | nil => exact absurd rfl h0
            | cons top tl => simp; omega
          · rw [if_neg hge]
            simp [listSwap_length]
            omega
      | none =>
        by_cases hpop : e = Instruction.POP
        · subst hpop
          rw [if_pos rfl]
          cases stack with
          | nil => simp [Instruction.info]; omega
          | cons v tl => simp [Instruction.info]; omega
        · rw [if_neg hpop]
          by_cases hjd : e = Instruction.JUMPDEST
          · subst hjd
            rw [if_pos rfl]
            simp [Instruction.info]
          · rw [if_neg hjd]
            dsimp only []
            have hca := collectArgs_spec L pops stack.length e.info.args 0
              stack pops
            have hev := evaluate_opcode_length e idx
              (collectArgs L pops stack.length 0 e.info.args stack pops).1
            rw [foldl_cons_length, hev]
            push_cast
            have h2 := hca.2
            omega

theorem emulateLoop_delta (L : Nat) :
    ∀ (insts : List IInstruction) (idx : Nat) (stack : List Operand)
      (pops : Nat),
    (∀ i ∈ insts, i.opcode.is_ok = true) →
    (emulateLoop L insts idx stack pops).2.2.2 = true ∧
    ((emulateLoop L insts idx stack pops).2.1.length : Int) -
      (emulateLoop L insts idx stack pops).2.2.1 =
      (stack.length : Int) - pops + naiveStackDelta insts := by
  intro insts
  induction insts with
  | nil =>
    intro idx stack pops h
    exact ⟨rfl, by simp [emulateLoop, naiveStackDelta]⟩
  | cons inst rest ih =>
    intro idx stack pops h
    cases hop : inst.opcode with
    | Err b =>
      have := h inst (List.mem_cons_self inst rest)
      rw [hop] at this
      exact absurd this (by simp [RustResult.is_ok])
    | Ok e =>
      have hs := emuStep_delta L idx inst e stack pops
      have hr := ih (idx + 1) (emuStep L idx inst e stack pops).2.1
        (emuStep L idx inst e stack pops).2.2
        (fun i hi => h i (List.mem_cons_of_mem inst hi))
      refine ⟨?_, ?_⟩
      · simp only [emulateLoop, hop]
        exact hr.1
      · simp only [emulateLoop, hop, naiveStackDelta]
        have h2 := hr.2
        omega

/-- C4: for every freshly parsed basic block (empty `returns`, zero
`pops_at_end`, not yet optimized) all of whose instructions decoded, after
`optimize()` the quantity `len(returns) - pops_at_end` equals the block's
net stack delta computed naively from the instruction-table arities of its
opcodes. -/
theorem C4_theorem (bb : BasicBlock)
    (hret : bb.returns = []) (hpops : bb.pops_at_end = 0)
    (hopt : bb.optimized = false)
    (hok : ∀ i ∈ bb.instructions, i.opcode.is_ok = true) :
    ((bb.optimize.returns.length : Int) - bb.optimize.pops_at_end) =
      naiveStackDelta bb.instructions := by
  have hL : ((List.range 32).map
      (fun i => Operand.StackRef (0, i))).length = 32 := by simp
  unfold BasicBlock.optimize
  rw [hopt]
  simp only [Bool.false_eq_true, if_false]
  unfold BasicBlock.emulate_bb
  dsimp only []
  rw [hpops, hL]
  have hloop := emulateLoop_delta 32 bb.instructions 0
    ((List.range 32).map (fun i => Operand.StackRef (0, i))) 0 hok
  rw [hL] at hloop
  rw [hloop.1]
  rw [if_pos rfl]
  have h2 := hloop.2
  split_ifs with hgt hlt
  · dsimp only []
    rw [List.length_take]
    omega
  · dsimp only []
    rw [hret]
    simp only [List.length_nil]
    push_cast
    omega
  · dsimp only []
    rw [hret]
    simp only [List.length_nil]
    push_cast
    omega

theorem C4_witness :
    (∀ i ∈ (BasicBlock.parse [0x50, 0x01, 0x00] 0 0).1.instructions,
       (i.opcode).is_ok = true) ∧
    (((BasicBlock.parse [0x50, 0x01, 0x00] 0 0).1.optimize.returns.length :
        Int) -
       (BasicBlock.parse [0x50, 0x01, 0x00] 0 0).1.optimize.pops_at_end =
       naiveStackDelta
         (BasicBlock.parse [0x50, 0x01, 0x00] 0 0).1.instructions) :=
  ⟨by rw [congrArg Prod.fst parse_pop_add_stop]; decide,
   C4_theorem (BasicBlock.parse [0x50, 0x01, 0x00] 0 0).1 rfl rfl rfl
     (by rw [congrArg Prod.fst parse_pop_add_stop]; decide)⟩
